import Mathlib

/-!
Verification of the Santa route-optimization planner (src/main.py).

The planner is shallowly embedded: pandas rows become structures, the
merged children table becomes `mergedChildren`, floats become exact
rationals, the Python `int()` conversion of a float becomes truncation
toward zero (`itrunc`), and every Python statement that can raise
(float division by zero, `int(inf)`, `.iloc[0]` on an empty selection)
becomes an explicit `Outcome.crash` / `none` branch.  The geodesic
distance provider is an external collaborator in the specification and
is therefore a function-valued field `dist` of the optimizer.  The
enumeration order of the Python sets `unvisited` (a deterministic but
implementation-defined order, as the specification itself notes) is
modelled as the order of a duplicate-free list.  The while-loop of
`optimize_route` is driven by explicit fuel; `none` means the fuel ran
out, which the termination theorems prove cannot happen on the stated
domains.
-/

set_option maxHeartbeats 1000000

/-- Geographic coordinate, a pair of exact rationals (latitude, longitude). -/
abbrev Coord := ℚ × ℚ

/-- Row of the children CSV before gift assignment. -/
structure Child where
  id : Nat
  lat : ℚ
  lon : ℚ
  naughty : Bool
  wish : Nat
deriving DecidableEq

/-- Row of the gifts CSV: catalog entry with per-unit footprint. -/
structure Gift where
  article : Nat
  weight : ℚ
  volume : ℚ
deriving DecidableEq

/-- Vehicle capacity profile as the specification describes the input
shape: maximum weight, maximum volume, speed, per-stop duration and a
total trip time budget. -/
structure SleighSpecs where
  max_weight : ℚ
  max_volume : ℚ
  speed_kmh : ℚ
  time_per_stop_min : ℚ
  trip_time_budget : ℚ
deriving DecidableEq

/-- The optimizer state after `__init__`: the loaded tables, the distance
provider, and the scalar fields set in lines 32 to 36 of `main.py`. -/
structure SantaRouteOptimizer where
  children : List Child
  gifts : List Gift
  dist : Coord → Coord → ℚ
  max_weight : ℚ
  max_volume : ℚ
  speed_kmh : ℚ
  time_per_stop_min : ℚ
  max_time_hours : ℚ

/-- Model of `SantaRouteOptimizer.__init__` (lines 28 to 36): the four
capacity fields are copied from the specs input and `max_time_hours`
is assigned the literal constant `7`. -/
def initOptimizer (children : List Child) (gifts : List Gift)
    (dist : Coord → Coord → ℚ) (specs : SleighSpecs) : SantaRouteOptimizer :=
  { children := children
    gifts := gifts
    dist := dist
    max_weight := specs.max_weight
    max_volume := specs.max_volume
    speed_kmh := specs.speed_kmh
    time_per_stop_min := specs.time_per_stop_min
    max_time_hours := 7 }

/-- The depot coordinate `NORTH_POLE = (90.0, 0.0)`. -/
def northPole : Coord := (90, 0)

/-- Lookup of the first catalog row whose article id matches, the model of
`gifts_df[gifts_df['article'] == article_id].iloc[0]` (and of the left
merge, which also joins against the first matching row). -/
def findGift (gifts : List Gift) (a : Nat) : Option Gift :=
  gifts.find? (fun g => g.article == a)

/-- Row of the merged children table produced by `assign_gifts`: the
resolved article id and the joined per-unit footprint columns.  A
failed left join leaves the footprint columns `none`, standing for the
NaN cells pandas produces. -/
structure MChild where
  id : Nat
  lat : ℚ
  lon : ℚ
  naughty : Bool
  article : Nat
  giftW : Option ℚ
  giftV : Option ℚ
deriving DecidableEq

/-- Coordinate tuple of a merged child row. -/
def MChild.coord (c : MChild) : Coord := (c.lat, c.lon)

/-- Model of `assign_gifts` on one row: naughty children are redirected to
the coal article (id 0), everyone else keeps their wish; the footprint
columns come from the left merge against the catalog. -/
def assignChild (gifts : List Gift) (ch : Child) : MChild :=
  let a := if ch.naughty then 0 else ch.wish
  { id := ch.id
    lat := ch.lat
    lon := ch.lon
    naughty := ch.naughty
    article := a
    giftW := (findGift gifts a).map Gift.weight
    giftV := (findGift gifts a).map Gift.volume }

/-- The merged children table after `assign_gifts`. -/
def mergedChildren (o : SantaRouteOptimizer) : List MChild :=
  o.children.map (assignChild o.gifts)

/-- Lookup of the first merged row with the given child id, the model of
`children_df[children_df['child'] == child_id].iloc[0]`. -/
def findChild (o : SantaRouteOptimizer) (cid : Nat) : Option MChild :=
  (mergedChildren o).find? (fun c => c.id == cid)

/-- Route events: a delivery to a child, or a depot reload carrying the
loaded manifest (article id, count). -/
inductive Event where
  | delivery (cid : Nat)
  | refuel (articles : List (Nat × Nat))
deriving DecidableEq

/-- Result of a completed run: the route, the accumulated time, the ids
warned as undeliverable (in emission order), and the advisory minimum
speed when the time budget was exceeded. -/
structure RunResult where
  route : List Event
  totalTime : ℚ
  warnings : List Nat
  advisory : Option ℚ
deriving DecidableEq

/-- Outcome of a run: normal completion or an uncaught Python exception. -/
inductive Outcome where
  | ok (r : RunResult)
  | crash
deriving DecidableEq

/-- Lookup in the cargo dictionary. -/
def cargoGet (cargo : List (Nat × Nat)) (a : Nat) : Option Nat :=
  (cargo.find? (fun p => p.1 == a)).map Prod.snd

/-- The `can_deliver` test of line 110: the article is onboard with a
positive count. -/
def canDeliver (cargo : List (Nat × Nat)) (a : Nat) : Bool :=
  match cargoGet cargo a with
  | some n => decide (0 < n)
  | none => false

/-- Decrement of the cargo dictionary at an article, deleting the entry
when it reaches zero (lines 148 to 150).  The branch is only entered
when the article is present with a positive count. -/
def cargoDec : List (Nat × Nat) → Nat → List (Nat × Nat)
  | [], _ => []
  | p :: rest, a =>
    if p.1 == a then
      (if p.2 - 1 == 0 then rest else (p.1, p.2 - 1) :: rest)
    else p :: cargoDec rest a

/-- The strict comparison `distance_to_child < best_distance` of line 112,
where an absent best stands for the initial infinity. -/
def improves (best : Option (Nat × ℚ)) (d : ℚ) : Bool :=
  match best with
  | none => true
  | some q => decide (d < q.2)

/-- The nearest-deliverable scan of lines 100 to 114: fold over the
unserved ids in encounter order, keeping the first candidate that
strictly improves the best distance so far.  An id that fails to look
up models the `.iloc[0]` IndexError and yields `none`. -/
def scanBest (o : SantaRouteOptimizer) (cargo : List (Nat × Nat)) (pos : Coord)
    (best : Option (Nat × ℚ)) : List Nat → Option (Option (Nat × ℚ))
  | [] => some best
  | cid :: rest =>
    match findChild o cid with
    | none => none
    | some c =>
      let d := o.dist pos c.coord
      let better := canDeliver cargo c.article && improves best d
      scanBest o cargo pos (if better then some (cid, d) else best) rest

/-- The undeliverability test of lines 121 to 122 on a merged row; a NaN
footprint column (failed join) compares false, as in Python. -/
def isTooBig (o : SantaRouteOptimizer) (c : MChild) : Bool :=
  (match c.giftW with
   | some w => decide (o.max_weight < w)
   | none => false) ||
  (match c.giftV with
   | some v => decide (o.max_volume < v)
   | none => false)

/-- Collection of the undeliverable ids (lines 117 to 124) in encounter
order; each one also produces a warning print. -/
def undeliverableList (o : SantaRouteOptimizer) : List Nat → Option (List Nat)
  | [] => some []
  | cid :: rest =>
    match findChild o cid with
    | none => none
    | some c =>
      (undeliverableList o rest).map
        (fun bad => if isTooBig o c then cid :: bad else bad)

/-- Set-removal of the dropped ids (lines 126 to 127). -/
def removeIds (l bad : List Nat) : List Nat :=
  l.filter (fun x => !bad.contains x)

/-- Demand tally increment: bump the count of an article, appending a new
entry in dictionary insertion order. -/
def bumpArticle : List (Nat × Nat) → Nat → List (Nat × Nat)
  | [], a => [(a, 1)]
  | p :: rest, a =>
    if p.1 == a then (p.1, p.2 + 1) :: rest else p :: bumpArticle rest a

/-- The demand tally of lines 182 to 186 over the unserved ids. -/
def tallyArticles (o : SantaRouteOptimizer) : List Nat → List (Nat × Nat) → Option (List (Nat × Nat))
  | [], acc => some acc
  | cid :: rest, acc =>
    match findChild o cid with
    | none => none
    | some c => tallyArticles o rest (bumpArticle acc c.article)

/-- Truncation toward zero, the behaviour of Python `int()` on a finite
float. -/
def itrunc (q : ℚ) : ℤ :=
  if 0 ≤ q then ⌊q⌋ else ⌈q⌉

/-- Insertion into a key-sorted association list. -/
def insertByKey (p : Nat × Nat) : List (Nat × Nat) → List (Nat × Nat)
  | [] => [p]
  | q :: rest => if p.1 ≤ q.1 then p :: q :: rest else q :: insertByKey p rest

/-- Ascending-key sort, the model of `sorted(needed_articles.items())`
(keys are unique, so sorting the pairs sorts by article id). -/
def sortByKey : List (Nat × Nat) → List (Nat × Nat)
  | [] => []
  | p :: rest => insertByKey p (sortByKey rest)

/-- The greedy fill of lines 188 to 204.  For each needed article in
ascending id order the source computes
`int((max_weight - current_weight) / gift['weight'])` and the volume
analogue; when the per-unit weight or volume is zero the float division
yields inf or NaN and the `int()` conversion raises, which is the
`none` branch here.  A missing catalog row is the `.iloc[0]`
IndexError. -/
def fillLoop (gifts : List Gift) (maxW maxV : ℚ) :
    List (Nat × Nat) → ℚ → ℚ → Option (List (Nat × Nat))
  | [], _, _ => some []
  | (a, need) :: rest, curW, curV =>
    match findGift gifts a with
    | none => none
    | some g =>
      if g.weight = 0 ∨ g.volume = 0 then none
      else
        let maxByW := itrunc ((maxW - curW) / g.weight)
        let maxByV := itrunc ((maxV - curV) / g.volume)
        let maxCan := min (min maxByW maxByV) (need : ℤ)
        if 0 < maxCan then
          (fillLoop gifts maxW maxV rest (curW + (maxCan : ℚ) * g.weight)
              (curV + (maxCan : ℚ) * g.volume)).map
            (fun out => (a, maxCan.toNat) :: out)
        else fillLoop gifts maxW maxV rest curW curV

/-- Model of `calculate_loading` (lines 171 to 204): tally the demand of
the unserved ids, then greedily fill in ascending article order. -/
def calculate_loading (o : SantaRouteOptimizer) (unvisited : List Nat) :
    Option (List (Nat × Nat)) :=
  match tallyArticles o unvisited [] with
  | none => none
  | some needed => fillLoop o.gifts o.max_weight o.max_volume (sortByKey needed) 0 0

/-- Reference greedy bin-fill, written from the specification text of
section 4.2: process the tallied demand in ascending item-id order,
load `min(floor(remaining_weight / w), floor(remaining_volume / v),
demand)` units, record only positive counts, and decrement the
remaining capacities.  The specification gives this loader no failure
path, so it is a total function. -/
def refFill (gifts : List Gift) : List (Nat × Nat) → ℚ → ℚ → List (Nat × Nat)
  | [], _, _ => []
  | (a, need) :: rest, remW, remV =>
    match findGift gifts a with
    | none => refFill gifts rest remW remV
    | some g =>
      let units := min (min ⌊remW / g.weight⌋ ⌊remV / g.volume⌋) (need : ℤ)
      if 0 < units then
        (a, units.toNat) :: refFill gifts rest (remW - (units : ℚ) * g.weight)
          (remV - (units : ℚ) * g.volume)
      else refFill gifts rest remW remV

/-- Loop state of `optimize_route`: the mutable variables of lines 93 to 97
plus the warning prints accumulated so far. -/
structure PState where
  unvisited : List Nat
  pos : Coord
  cargo : List (Nat × Nat)
  totalTime : ℚ
  route : List Event
  warnings : List Nat

/-- The post-loop epilogue, lines 158 to 169: accumulate the final
return-to-depot time, append the trailing empty reload, and compare
against the time budget.  A zero speed or (in the exceeded branch) a
zero budget is a float division by zero, hence a crash. -/
def finalize (o : SantaRouteOptimizer) (st : PState) : Outcome :=
  if o.speed_kmh = 0 then Outcome.crash
  else
    let t := st.totalTime + o.dist st.pos northPole / o.speed_kmh
    let rt := st.route ++ [Event.refuel []]
    if o.max_time_hours < t then
      if o.max_time_hours = 0 then Outcome.crash
      else Outcome.ok ⟨rt, t, st.warnings, some (t / o.max_time_hours * o.speed_kmh)⟩
    else Outcome.ok ⟨rt, t, st.warnings, none⟩

/-- One fuel-indexed unfolding of the while-loop of lines 99 to 156.
The answer `none` means the fuel ran out. -/
def loopAux (o : SantaRouteOptimizer) : Nat → PState → Option Outcome
  | 0, _ => none
  | fuel + 1, st =>
    match st.unvisited with
    | [] => some (finalize o st)
    | _ :: _ =>
      match scanBest o st.cargo st.pos none st.unvisited with
      | none => some Outcome.crash
      | some (some (cid, _)) =>
        match findChild o cid with
        | none => some Outcome.crash
        | some c =>
          if o.speed_kmh = 0 then some Outcome.crash
          else
            loopAux o fuel
              { unvisited := st.unvisited.erase cid
                pos := c.coord
                cargo := cargoDec st.cargo c.article
                totalTime := st.totalTime + o.dist st.pos c.coord / o.speed_kmh +
                  o.time_per_stop_min / 60
                route := st.route ++ [Event.delivery cid]
                warnings := st.warnings }
      | some none =>
        match undeliverableList o st.unvisited with
        | none => some Outcome.crash
        | some bad =>
          let rest := removeIds st.unvisited bad
          if rest.isEmpty then
            some (finalize o { st with unvisited := rest, warnings := st.warnings ++ bad })
          else if o.speed_kmh = 0 then some Outcome.crash
          else
            match calculate_loading o rest with
            | none => some Outcome.crash
            | some loading =>
              loopAux o fuel
                { unvisited := rest
                  pos := northPole
                  cargo := loading
                  totalTime := st.totalTime + o.dist st.pos northPole / o.speed_kmh
                  route := st.route ++ [Event.refuel loading]
                  warnings := st.warnings ++ bad }

/-- The initial unserved set `set(children_df['child'].tolist())` after
`assign_gifts`, modelled as the duplicate-free id list in encounter
order. -/
def initUnvisited (o : SantaRouteOptimizer) : List Nat :=
  ((mergedChildren o).map MChild.id).dedup

/-- Model of `optimize_route`.  The fuel `2 * n + 2` dominates the
iteration count: every iteration either serves a child, drops at least
one undeliverable child, or reloads and is then immediately followed by
a delivery. -/
def optimize_route (o : SantaRouteOptimizer) : Option Outcome :=
  loopAux o (2 * (initUnvisited o).length + 2)
    { unvisited := initUnvisited o
      pos := northPole
      cargo := []
      totalTime := 0
      route := []
      warnings := [] }

/-- Cargo snapshots of a run: the manifest held at the top of each
while-loop iteration, mirroring `loopAux` branch for branch.  The
manifest is mutated at most once per iteration (the delivery decrement
of lines 148 to 150 at the iteration's end, or the reload replacement
of line 139), and the loop head is visited again after each mutation
(also when the unserved set has just emptied), so this list records
every value the cargo manifest takes during the run.  A branch on which
`loopAux` crashes or exhausts its fuel ends the trace. -/
def cargoStates (o : SantaRouteOptimizer) : Nat → PState → List (List (Nat × Nat))
  | 0, _ => []
  | fuel + 1, st =>
    st.cargo ::
    (match st.unvisited with
     | [] => []
     | _ :: _ =>
       match scanBest o st.cargo st.pos none st.unvisited with
       | none => []
       | some (some (cid, _)) =>
         match findChild o cid with
         | none => []
         | some c =>
           if o.speed_kmh = 0 then []
           else
             cargoStates o fuel
               { unvisited := st.unvisited.erase cid
                 pos := c.coord
                 cargo := cargoDec st.cargo c.article
                 totalTime := st.totalTime + o.dist st.pos c.coord / o.speed_kmh +
                   o.time_per_stop_min / 60
                 route := st.route ++ [Event.delivery cid]
                 warnings := st.warnings }
       | some none =>
         match undeliverableList o st.unvisited with
         | none => []
         | some bad =>
           let rest := removeIds st.unvisited bad
           if rest.isEmpty then []
           else if o.speed_kmh = 0 then []
           else
             match calculate_loading o rest with
             | none => []
             | some loading =>
               cargoStates o fuel
                 { unvisited := rest
                   pos := northPole
                   cargo := loading
                   totalTime := st.totalTime + o.dist st.pos northPole / o.speed_kmh
                   route := st.route ++ [Event.refuel loading]
                   warnings := st.warnings ++ bad })

/-- Every manifest value the cargo takes during `optimize_route`. -/
def optimizeCargoStates (o : SantaRouteOptimizer) : List (List (Nat × Nat)) :=
  cargoStates o (2 * (initUnvisited o).length + 2)
    { unvisited := initUnvisited o
      pos := northPole
      cargo := []
      totalTime := 0
      route := []
      warnings := [] }

/-- Total manifest weight, the sum of per-unit weight times count. -/
def manifestWeight (gifts : List Gift) (m : List (Nat × Nat)) : ℚ :=
  (m.map (fun p => (p.2 : ℚ) * (((findGift gifts p.1).map Gift.weight).getD 0))).sum

/-- Total manifest volume, the sum of per-unit volume times count. -/
def manifestVolume (gifts : List Gift) (m : List (Nat × Nat)) : ℚ :=
  (m.map (fun p => (p.2 : ℚ) * (((findGift gifts p.1).map Gift.volume).getD 0))).sum

/-- Deliverability of an unserved id from the current cargo. -/
def Deliverable (o : SantaRouteOptimizer) (cargo : List (Nat × Nat)) (cid : Nat) : Prop :=
  ∃ c, findChild o cid = some c ∧ canDeliver cargo c.article = true

/-- An article whose per-unit footprint exceeds the full capacity on
weight or volume. -/
def heavyArticle (o : SantaRouteOptimizer) (a : Nat) : Prop :=
  ∃ g, findGift o.gifts a = some g ∧ (o.max_weight < g.weight ∨ o.max_volume < g.volume)

/-- A child id whose merged row fails the full-capacity check. -/
def tooBigId (o : SantaRouteOptimizer) (cid : Nat) : Prop :=
  ∃ c, findChild o cid = some c ∧ isTooBig o c = true

/-- Boolean form of `tooBigId` for concrete inputs. -/
def isTooBigId (o : SantaRouteOptimizer) (cid : Nat) : Bool :=
  match findChild o cid with
  | some c => isTooBig o c
  | none => false

/-- Catalog check: the article resolves and has a positive per-unit weight
and volume. -/
def giftOk (gifts : List Gift) (a : Nat) : Bool :=
  match findGift gifts a with
  | some g => decide (0 < g.weight) && decide (0 < g.volume)
  | none => false

/-- Catalog check: the article resolves at all. -/
def giftResolves (gifts : List Gift) (a : Nat) : Bool :=
  (findGift gifts a).isSome

/-- Catalog check: the article fits within the full empty capacity. -/
def giftFits (o : SantaRouteOptimizer) (a : Nat) : Bool :=
  match findGift o.gifts a with
  | some g => decide (g.weight ≤ o.max_weight) && decide (g.volume ≤ o.max_volume)
  | none => false

/-- The child ids delivered along a route, in order. -/
def deliveredIds (r : List Event) : List Nat :=
  r.filterMap (fun e =>
    match e with
    | Event.delivery cid => some cid
    | Event.refuel _ => none)

/-- Statement form: `d` is at most the distance of every deliverable
unserved id in `l`. -/
def MinOver (o : SantaRouteOptimizer) (cargo : List (Nat × Nat)) (pos : Coord)
    (d : ℚ) (l : List Nat) : Prop :=
  ∀ cid ∈ l, ∀ c, findChild o cid = some c → canDeliver cargo c.article = true →
    d ≤ o.dist pos c.coord

/-- Statement form: `d` is strictly below the distance of every deliverable
unserved id in `l`. -/
def MinOverStrict (o : SantaRouteOptimizer) (cargo : List (Nat × Nat)) (pos : Coord)
    (d : ℚ) (l : List Nat) : Prop :=
  ∀ cid ∈ l, ∀ c, findChild o cid = some c → canDeliver cargo c.article = true →
    d < o.dist pos c.coord

/-- Distance provider used by the concrete examples: a collaborator that
returns zero everywhere (any pure nonnegative function is admissible
per the specification). -/
def distZero : Coord → Coord → ℚ := fun _ _ => 0

/-- Capacity profile used by the concrete examples. -/
def exSpecs : SleighSpecs :=
  { max_weight := 10, max_volume := 10, speed_kmh := 1,
    time_per_stop_min := 5, trip_time_budget := 7 }

/-- Example run with no children at all. -/
def exEmptyO : SantaRouteOptimizer := initOptimizer [] [] distZero exSpecs

/-- Example run with one nice child whose gift fits. -/
def exOneO : SantaRouteOptimizer :=
  initOptimizer [{ id := 1, lat := 1, lon := 1, naughty := false, wish := 5 }]
    [{ article := 0, weight := 1, volume := 1 },
     { article := 5, weight := 2, volume := 3 }]
    distZero exSpecs

/-- Example run with one naughty child and a zero-footprint coal article:
the catalog resolves, yet `calculate_loading` divides by the zero
per-unit weight. -/
def exCoalO : SantaRouteOptimizer :=
  initOptimizer [{ id := 1, lat := 0, lon := 0, naughty := true, wish := 3 }]
    [{ article := 0, weight := 0, volume := 0 }]
    distZero exSpecs

/-- Example run with one oversized child and one naughty child bound for
zero-footprint coal. -/
def exHeavyCoalO : SantaRouteOptimizer :=
  initOptimizer
    [{ id := 1, lat := 0, lon := 0, naughty := false, wish := 5 },
     { id := 2, lat := 0, lon := 0, naughty := true, wish := 9 }]
    [{ article := 0, weight := 0, volume := 0 },
     { article := 5, weight := 100, volume := 1 }]
    distZero exSpecs

/-- Example run with two children sharing a heavy-but-fitting article. -/
def exTwoO : SantaRouteOptimizer :=
  initOptimizer
    [{ id := 1, lat := 1, lon := 1, naughty := false, wish := 4 },
     { id := 2, lat := 2, lon := 2, naughty := false, wish := 4 }]
    [{ article := 0, weight := 1, volume := 1 },
     { article := 4, weight := 6, volume := 1 }]
    distZero exSpecs

/-- Example run with no children and a distance provider that makes the
final depot return alone exceed the time budget. -/
def exLateO : SantaRouteOptimizer := initOptimizer [] [] (fun _ _ => 70) exSpecs

/-- Example run with one oversized child and one deliverable child. -/
def exHeavyOkO : SantaRouteOptimizer :=
  initOptimizer
    [{ id := 1, lat := 0, lon := 0, naughty := false, wish := 7 },
     { id := 2, lat := 1, lon := 1, naughty := false, wish := 5 }]
    [{ article := 0, weight := 1, volume := 1 },
     { article := 5, weight := 2, volume := 3 },
     { article := 7, weight := 100, volume := 1 }]
    distZero exSpecs

/-! ## Basic lookup lemmas -/

theorem findChild_mem {o : SantaRouteOptimizer} {cid : Nat} {c : MChild}
    (h : findChild o cid = some c) : c ∈ mergedChildren o :=
  List.mem_of_find?_eq_some h

theorem findChild_id {o : SantaRouteOptimizer} {cid : Nat} {c : MChild}
    (h : findChild o cid = some c) : c.id = cid := by
  have := List.find?_some h
  exact eq_of_beq this

theorem mergedChild_giftW {o : SantaRouteOptimizer} {c : MChild}
    (h : c ∈ mergedChildren o) :
    c.giftW = (findGift o.gifts c.article).map Gift.weight ∧
    c.giftV = (findGift o.gifts c.article).map Gift.volume := by
  obtain ⟨ch, _, rfl⟩ := List.mem_map.mp h
  exact ⟨rfl, rfl⟩

theorem giftOk_iff {gifts : List Gift} {a : Nat} :
    giftOk gifts a = true ↔
    ∃ g, findGift gifts a = some g ∧ 0 < g.weight ∧ 0 < g.volume := by
  unfold giftOk
  cases h : findGift gifts a <;> simp [h]

theorem canDeliver_iff {cargo : List (Nat × Nat)} {a : Nat} :
    canDeliver cargo a = true ↔ ∃ n, cargoGet cargo a = some n ∧ 0 < n := by
  unfold canDeliver
  cases h : cargoGet cargo a <;> simp [h]

theorem cargoGet_mem {cargo : List (Nat × Nat)} {a : Nat} {n : Nat}
    (h : cargoGet cargo a = some n) : (a, n) ∈ cargo := by
  unfold cargoGet at h
  cases hf : cargo.find? (fun p => p.1 == a) with
  | none => rw [hf] at h; cases h
  | some p =>
    rw [hf] at h
    have hp := List.find?_some hf
    have hmem := List.mem_of_find?_eq_some hf
    have h1 : p.1 = a := eq_of_beq hp
    have h2 : p.2 = n := by simpa using h
    have : p = (a, n) := by
      cases p; simp_all
    rwa [this] at hmem

theorem cargoDec_keys {cargo : List (Nat × Nat)} {a : Nat} :
    ∀ p ∈ cargoDec cargo a, ∃ q ∈ cargo, q.1 = p.1 := by
  induction cargo with
  | nil => intro p hp; cases hp
  | cons q rest ih =>
    intro p hp
    unfold cargoDec at hp
    by_cases hq : q.1 == a
    · simp only [hq, if_true] at hp
      by_cases hz : q.2 - 1 == 0
      · simp only [hz, if_true] at hp
        exact ⟨p, List.mem_cons_of_mem _ hp, rfl⟩
      · simp only [hz, if_false] at hp
        rcases List.mem_cons.mp hp with h | h
        · exact ⟨q, List.mem_cons_self _ _, by rw [h]⟩
        · exact ⟨p, List.mem_cons_of_mem _ h, rfl⟩
    · simp only [hq, if_false] at hp
      rcases List.mem_cons.mp hp with h | h
      · exact ⟨q, List.mem_cons_self _ _, by rw [h]⟩
      · obtain ⟨q', hq', he⟩ := ih p h
        exact ⟨q', List.mem_cons_of_mem _ hq', he⟩

/-! ## Lemmas about the nearest-deliverable scan -/

theorem scanBest_acc_le {o : SantaRouteOptimizer} {cargo : List (Nat × Nat)} {pos : Coord} :
    ∀ {l : List Nat} {acc res : Option (Nat × ℚ)},
      scanBest o cargo pos acc l = some res →
      ∀ b, acc = some b → ∃ cd, res = some cd ∧ cd.2 ≤ b.2 := by
  intro l
  induction l with
  | nil =>
    intro acc res h b hb
    simp only [scanBest] at h
    exact ⟨b, by rw [← hb, Option.some_inj.mp h], le_refl _⟩
  | cons cid rest ih =>
    intro acc res h b hb
    subst hb
    simp only [scanBest] at h
    cases hc : findChild o cid with
    | none => rw [hc] at h; cases h
    | some c =>
      rw [hc] at h
      simp only [improves] at h
      by_cases hcd : canDeliver cargo c.article = true
      · by_cases hlt : o.dist pos c.coord < b.2
        · rw [hcd, if_pos (by simp [hlt])] at h
          obtain ⟨cd, hcd', hle⟩ := ih h (cid, o.dist pos c.coord) rfl
          exact ⟨cd, hcd', le_trans hle (le_of_lt hlt)⟩
        · rw [hcd, if_neg (by simp [hlt])] at h
          exact ih h b rfl
      · rw [Bool.not_eq_true] at hcd
        rw [hcd, if_neg (by simp)] at h
        exact ih h b rfl

theorem scanBest_total {o : SantaRouteOptimizer} (cargo : List (Nat × Nat)) (pos : Coord) :
    ∀ {l : List Nat} (acc : Option (Nat × ℚ)),
      (∀ cid ∈ l, (findChild o cid).isSome) →
      ∃ res, scanBest o cargo pos acc l = some res := by
  intro l
  induction l with
  | nil => intro acc _; exact ⟨acc, rfl⟩
  | cons cid rest ih =>
    intro acc hl
    have hc : (findChild o cid).isSome := hl cid (List.mem_cons_self _ _)
    cases hcc : findChild o cid with
    | none => rw [hcc] at hc; cases hc
    | some c =>
      simp only [scanBest, hcc]
      exact ih _ (fun x hx => hl x (List.mem_cons_of_mem _ hx))

theorem scanBest_some_of {o : SantaRouteOptimizer} {cargo : List (Nat × Nat)} {pos : Coord} :
    ∀ {l : List Nat} (acc : Option (Nat × ℚ)),
      (∀ cid ∈ l, (findChild o cid).isSome) →
      ((∃ p, acc = some p) ∨ ∃ cid ∈ l, Deliverable o cargo cid) →
      ∃ cd, scanBest o cargo pos acc l = some (some cd) := by
  intro l
  induction l with
  | nil =>
    intro acc _ hex
    rcases hex with ⟨p, rfl⟩ | ⟨cid, hmem, _⟩
    · exact ⟨p, rfl⟩
    · cases hmem
  | cons cid rest ih =>
    intro acc hl hex
    have hc : (findChild o cid).isSome := hl cid (List.mem_cons_self _ _)
    cases hcc : findChild o cid with
    | none => rw [hcc] at hc; cases hc
    | some c =>
      simp only [scanBest, hcc]
      have hrest : ∀ x ∈ rest, (findChild o x).isSome :=
        fun x hx => hl x (List.mem_cons_of_mem _ hx)
      by_cases hb : (canDeliver cargo c.article && improves acc (o.dist pos c.coord)) = true
      · rw [if_pos hb]
        exact ih _ hrest (Or.inl ⟨(cid, o.dist pos c.coord), rfl⟩)
      · rw [if_neg hb]
        refine ih _ hrest ?_
        rcases hex with ⟨p, rfl⟩ | ⟨cid', hmem, hdel⟩
        · exact Or.inl ⟨p, rfl⟩
        · rcases List.mem_cons.mp hmem with rfl | hmem'
          · obtain ⟨c', hc', hcd⟩ := hdel
            rw [hcc] at hc'
            cases Option.some_inj.mp hc'
            cases acc with
            | none => exact absurd (by rw [hcd]; rfl) hb
            | some q => exact Or.inl ⟨q, rfl⟩
          · exact Or.inr ⟨cid', hmem', hdel⟩

theorem scanBest_none_char {o : SantaRouteOptimizer} {cargo : List (Nat × Nat)} {pos : Coord} :
    ∀ {l : List Nat} {acc : Option (Nat × ℚ)},
      scanBest o cargo pos acc l = some none →
      acc = none ∧ ∀ cid ∈ l, ∀ c, findChild o cid = some c →
        canDeliver cargo c.article = false := by
  intro l
  induction l with
  | nil =>
    intro acc h
    simp only [scanBest] at h
    exact ⟨Option.some_inj.mp h, fun cid hmem => absurd hmem (List.not_mem_nil _)⟩
  | cons cid rest ih =>
    intro acc h
    cases hc : findChild o cid with
    | none => simp only [scanBest, hc] at h; cases h
    | some c =>
      simp only [scanBest, hc] at h
      by_cases hbet : (canDeliver cargo c.article && improves acc (o.dist pos c.coord)) = true
      · rw [if_pos hbet] at h
        obtain ⟨cd, hcd, _⟩ := scanBest_acc_le h (cid, o.dist pos c.coord) rfl
        cases hcd
      · rw [if_neg hbet] at h
        obtain ⟨hacc, hrest⟩ := ih h
        subst hacc
        refine ⟨rfl, fun cid' hmem c' hc' => ?_⟩
        rcases List.mem_cons.mp hmem with rfl | hmem'
        · rw [hc] at hc'
          cases Option.some_inj.mp hc'
          by_contra hcd
          rw [Bool.not_eq_false] at hcd
          exact hbet (by rw [hcd]; rfl)
        · exact hrest cid' hmem' c' hc'

theorem scanBest_char {o : SantaRouteOptimizer} {cargo : List (Nat × Nat)} {pos : Coord} :
    ∀ {l : List Nat} {acc : Option (Nat × ℚ)} {cid : Nat} {d : ℚ},
      scanBest o cargo pos acc l = some (some (cid, d)) →
      (acc = some (cid, d) ∧ MinOver o cargo pos d l) ∨
      (∃ l₁ l₂ c, l = l₁ ++ cid :: l₂ ∧ findChild o cid = some c ∧
        canDeliver cargo c.article = true ∧ d = o.dist pos c.coord ∧
        MinOverStrict o cargo pos d l₁ ∧ MinOver o cargo pos d l₂ ∧
        ∀ b, acc = some b → d < b.2) := by
  intro l
  induction l with
  | nil =>
    intro acc cid d h
    simp only [scanBest] at h
    exact Or.inl ⟨Option.some_inj.mp h, fun cid' hmem => absurd hmem (List.not_mem_nil _)⟩
  | cons e rest ih =>
    intro acc cid d h
    cases hc : findChild o e with
    | none => simp only [scanBest, hc] at h; cases h
    | some c =>
      simp only [scanBest, hc] at h
      by_cases hbet : (canDeliver cargo c.article && improves acc (o.dist pos c.coord)) = true
      · rw [if_pos hbet] at h
        have hab : canDeliver cargo c.article = true ∧
            improves acc (o.dist pos c.coord) = true := by simpa using hbet
        have hcd : canDeliver cargo c.article = true := hab.1
        have himp : improves acc (o.dist pos c.coord) = true := hab.2
        rcases ih h with ⟨heq, hmin⟩ | ⟨l₁', l₂', c'', hsplit, hlk, hcd', hd, hstrict, hmin, haccN⟩
        · obtain ⟨rfl, rfl⟩ : cid = e ∧ d = o.dist pos c.coord := by
            have := Option.some_inj.mp heq
            exact ⟨congrArg Prod.fst this.symm, congrArg Prod.snd this.symm⟩
          refine Or.inr ⟨[], rest, c, rfl, hc, hcd, rfl, ?_, hmin, ?_⟩
          · exact fun cid' hmem => absurd hmem (List.not_mem_nil _)
          · intro b hb
            subst hb
            exact of_decide_eq_true himp
        · have hde : d < o.dist pos c.coord := haccN (e, o.dist pos c.coord) rfl
          refine Or.inr ⟨e :: l₁', l₂', c'', by rw [hsplit, List.cons_append], hlk, hcd', hd, ?_, hmin, ?_⟩
          · intro cid' hmem c' hc' hcd''
            rcases List.mem_cons.mp hmem with rfl | hmem'
            · rw [hc] at hc'
              cases Option.some_inj.mp hc'
              exact hde
            · exact hstrict cid' hmem' c' hc' hcd''
          · intro b hb
            subst hb
            exact lt_trans hde (of_decide_eq_true himp)
      · rw [if_neg hbet] at h
        rcases ih h with ⟨hacc, hmin⟩ | ⟨l₁', l₂', c'', hsplit, hlk, hcd', hd, hstrict, hmin, haccN⟩
        · refine Or.inl ⟨hacc, ?_⟩
          intro cid' hmem c' hc' hcd''
          rcases List.mem_cons.mp hmem with rfl | hmem'
          · rw [hc] at hc'
            cases Option.some_inj.mp hc'
            by_contra hlt
            push_neg at hlt
            apply hbet
            rw [hcd'', hacc]
            simpa [improves] using hlt
          · exact hmin cid' hmem' c' hc' hcd''
        · refine Or.inr ⟨e :: l₁', l₂', c'', by rw [hsplit, List.cons_append], hlk, hcd', hd, ?_, hmin, haccN⟩
          intro cid' hmem c' hc' hcd''
          rcases List.mem_cons.mp hmem with rfl | hmem'
          · rw [hc] at hc'
            cases Option.some_inj.mp hc'
            cases hacc : acc with
            | none =>
              exfalso
              apply hbet
              rw [hcd'', hacc]
              rfl
            | some b =>
              have hble : b.2 ≤ o.dist pos c.coord := by
                by_contra hlt
                push_neg at hlt
                apply hbet
                rw [hcd'', hacc]
                simpa [improves] using hlt
              exact lt_of_lt_of_le (haccN b hacc) hble
          · exact hstrict cid' hmem' c' hc' hcd''

/-! ## Lemmas about the undeliverable drop -/

theorem undeliverableList_total {o : SantaRouteOptimizer} :
    ∀ {l : List Nat}, (∀ cid ∈ l, (findChild o cid).isSome) →
      ∃ bad, undeliverableList o l = some bad := by
  intro l
  induction l with
  | nil => intro _; exact ⟨[], rfl⟩
  | cons cid rest ih =>
    intro hl
    have hc : (findChild o cid).isSome := hl cid (List.mem_cons_self _ _)
    cases hcc : findChild o cid with
    | none => rw [hcc] at hc; cases hc
    | some c =>
      obtain ⟨bad, hbad⟩ := ih (fun x hx => hl x (List.mem_cons_of_mem _ hx))
      exact ⟨if isTooBig o c then cid :: bad else bad, by
        simp only [undeliverableList, hcc, hbad, Option.map_some']⟩

theorem undeliverableList_sublist {o : SantaRouteOptimizer} :
    ∀ {l bad : List Nat}, undeliverableList o l = some bad → bad.Sublist l := by
  intro l
  induction l with
  | nil =>
    intro bad h
    simp only [undeliverableList] at h
    rw [← Option.some_inj.mp h]
  | cons cid rest ih =>
    intro bad h
    cases hcc : findChild o cid with
    | none => simp only [undeliverableList, hcc] at h; cases h
    | some c =>
      simp only [undeliverableList, hcc] at h
      cases hbad : undeliverableList o rest with
      | none => rw [hbad] at h; cases h
      | some bad' =>
        rw [hbad] at h
        simp only [Option.map_some'] at h
        by_cases hbig : isTooBig o c = true
        · rw [if_pos hbig] at h
          rw [← Option.some_inj.mp h]
          exact List.Sublist.cons₂ _ (ih hbad)
        · rw [if_neg hbig] at h
          rw [← Option.some_inj.mp h]
          exact List.Sublist.cons _ (ih hbad)

theorem undeliverableList_sound {o : SantaRouteOptimizer} :
    ∀ {l bad : List Nat}, undeliverableList o l = some bad →
      ∀ cid ∈ bad, ∃ c, findChild o cid = some c ∧ isTooBig o c = true := by
  intro l
  induction l with
  | nil =>
    intro bad h
    simp only [undeliverableList] at h
    rw [← Option.some_inj.mp h]
    intro cid hmem
    cases hmem
  | cons cid rest ih =>
    intro bad h
    cases hcc : findChild o cid with
    | none => simp only [undeliverableList, hcc] at h; cases h
    | some c =>
      simp only [undeliverableList, hcc] at h
      cases hbad : undeliverableList o rest with
      | none => rw [hbad] at h; cases h
      | some bad' =>
        rw [hbad] at h
        simp only [Option.map_some'] at h
        by_cases hbig : isTooBig o c = true
        · rw [if_pos hbig] at h
          rw [← Option.some_inj.mp h]
          intro cid' hmem
          rcases List.mem_cons.mp hmem with rfl | hmem'
          · exact ⟨c, hcc, hbig⟩
          · exact ih hbad cid' hmem'
        · rw [if_neg hbig] at h
          rw [← Option.some_inj.mp h]
          exact ih hbad

theorem undeliverableList_complete {o : SantaRouteOptimizer} :
    ∀ {l bad : List Nat}, undeliverableList o l = some bad →
      ∀ cid ∈ l, ∀ c, findChild o cid = some c → isTooBig o c = true → cid ∈ bad := by
  intro l
  induction l with
  | nil =>
    intro bad _ cid hmem
    cases hmem
  | cons cid rest ih =>
    intro bad h
    cases hcc : findChild o cid with
    | none => simp only [undeliverableList, hcc] at h; cases h
    | some c =>
      simp only [undeliverableList, hcc] at h
      cases hbad : undeliverableList o rest with
      | none => rw [hbad] at h; cases h
      | some bad' =>
        rw [hbad] at h
        simp only [Option.map_some'] at h
        intro cid' hmem c' hc' hbig'
        rcases List.mem_cons.mp hmem with rfl | hmem'
        · rw [hcc] at hc'
          cases Option.some_inj.mp hc'
          rw [← Option.some_inj.mp h, if_pos hbig']
          exact List.mem_cons_self _ _
        · have : cid' ∈ bad' := ih hbad cid' hmem' c' hc' hbig'
          rw [← Option.some_inj.mp h]
          by_cases hbig : isTooBig o c = true
          · rw [if_pos hbig]; exact List.mem_cons_of_mem _ this
          · rw [if_neg hbig]; exact this

/-! ## Lemmas about set removal -/

theorem removeIds_mem {l bad : List Nat} {cid : Nat} :
    cid ∈ removeIds l bad ↔ cid ∈ l ∧ cid ∉ bad := by
  simp [removeIds, List.mem_filter]

theorem removeIds_nodup {l bad : List Nat} (h : l.Nodup) : (removeIds l bad).Nodup :=
  List.Nodup.filter _ h

theorem removeIds_length_le (l bad : List Nat) : (removeIds l bad).length ≤ l.length :=
  List.length_filter_le _ _

theorem removeIds_isEmpty {l bad : List Nat} :
    (removeIds l bad).isEmpty = true ↔ ∀ cid ∈ l, cid ∈ bad := by
  rw [List.isEmpty_iff]
  constructor
  · intro h cid hmem
    by_contra hnb
    have : cid ∈ removeIds l bad := removeIds_mem.mpr ⟨hmem, hnb⟩
    rw [h] at this
    cases this
  · intro h
    cases hr : removeIds l bad with
    | nil => rfl
    | cons x rest =>
      exfalso
      have hx : x ∈ removeIds l bad := by rw [hr]; exact List.mem_cons_self _ _
      obtain ⟨hxl, hxb⟩ := removeIds_mem.mp hx
      exact hxb (h x hxl)

/-! ## Lemmas about the demand tally -/

theorem bumpArticle_keys {a : Nat} :
    ∀ {acc : List (Nat × Nat)} {p : Nat × Nat}, p ∈ bumpArticle acc a →
      p.1 = a ∨ ∃ q ∈ acc, q.1 = p.1 := by
  intro acc
  induction acc with
  | nil =>
    intro p hp
    simp only [bumpArticle, List.mem_singleton] at hp
    exact Or.inl (by rw [hp])
  | cons q rest ih =>
    intro p hp
    simp only [bumpArticle] at hp
    by_cases hq : (q.1 == a) = true
    · rw [if_pos hq] at hp
      rcases List.mem_cons.mp hp with rfl | hmem
      · exact Or.inr ⟨q, List.mem_cons_self _ _, rfl⟩
      · exact Or.inr ⟨p, List.mem_cons_of_mem _ hmem, rfl⟩
    · rw [if_neg hq] at hp
      rcases List.mem_cons.mp hp with rfl | hmem
      · exact Or.inr ⟨p, List.mem_cons_self _ _, rfl⟩
      · rcases ih hmem with h | ⟨q', hq', he⟩
        · exact Or.inl h
        · exact Or.inr ⟨q', List.mem_cons_of_mem _ hq', he⟩

theorem bumpArticle_pos {a : Nat} :
    ∀ {acc : List (Nat × Nat)}, (∀ p ∈ acc, 0 < p.2) →
      ∀ p ∈ bumpArticle acc a, 0 < p.2 := by
  intro acc
  induction acc with
  | nil =>
    intro _ p hp
    simp only [bumpArticle, List.mem_singleton] at hp
    rw [hp]
    exact Nat.one_pos
  | cons q rest ih =>
    intro hacc p hp
    simp only [bumpArticle] at hp
    by_cases hq : (q.1 == a) = true
    · rw [if_pos hq] at hp
      rcases List.mem_cons.mp hp with rfl | hmem
      · exact Nat.succ_pos _
      · exact hacc p (List.mem_cons_of_mem _ hmem)
    · rw [if_neg hq] at hp
      rcases List.mem_cons.mp hp with rfl | hmem
      · exact hacc p (List.mem_cons_self _ _)
      · exact ih (fun x hx => hacc x (List.mem_cons_of_mem _ hx)) p hmem

theorem bumpArticle_ne_nil {acc : List (Nat × Nat)} {a : Nat} :
    bumpArticle acc a ≠ [] := by
  cases acc with
  | nil => simp [bumpArticle]
  | cons q rest =>
    simp only [bumpArticle]
    by_cases hq : (q.1 == a) = true
    · rw [if_pos hq]; exact List.cons_ne_nil _ _
    · rw [if_neg hq]; exact List.cons_ne_nil _ _

theorem tallyArticles_total {o : SantaRouteOptimizer} :
    ∀ {l : List Nat} (acc : List (Nat × Nat)),
      (∀ cid ∈ l, (findChild o cid).isSome) →
      ∃ t, tallyArticles o l acc = some t := by
  intro l
  induction l with
  | nil => intro acc _; exact ⟨acc, rfl⟩
  | cons cid rest ih =>
    intro acc hl
    have hc : (findChild o cid).isSome := hl cid (List.mem_cons_self _ _)
    cases hcc : findChild o cid with
    | none => rw [hcc] at hc; cases hc
    | some c =>
      simp only [tallyArticles, hcc]
      exact ih _ (fun x hx => hl x (List.mem_cons_of_mem _ hx))

theorem tallyArticles_keys {o : SantaRouteOptimizer} :
    ∀ {l : List Nat} {acc t : List (Nat × Nat)},
      tallyArticles o l acc = some t →
      ∀ p ∈ t, (∃ q ∈ acc, q.1 = p.1) ∨
        ∃ cid ∈ l, ∃ c, findChild o cid = some c ∧ c.article = p.1 := by
  intro l
  induction l with
  | nil =>
    intro acc t h p hp
    simp only [tallyArticles] at h
    rw [← Option.some_inj.mp h] at hp
    exact Or.inl ⟨p, hp, rfl⟩
  | cons cid rest ih =>
    intro acc t h p hp
    cases hcc : findChild o cid with
    | none => simp only [tallyArticles, hcc] at h; cases h
    | some c =>
      simp only [tallyArticles, hcc] at h
      rcases ih h p hp with ⟨q, hq, he⟩ | ⟨cid', hmem, c', hc', he⟩
      · rcases bumpArticle_keys hq with h1 | ⟨q', hq', he'⟩
        · exact Or.inr ⟨cid, List.mem_cons_self _ _, c, hcc, by rw [← h1]; exact he⟩
        · exact Or.inl ⟨q', hq', by rw [he', he]⟩
      · exact Or.inr ⟨cid', List.mem_cons_of_mem _ hmem, c', hc', he⟩

theorem tallyArticles_pos {o : SantaRouteOptimizer} :
    ∀ {l : List Nat} {acc t : List (Nat × Nat)},
      tallyArticles o l acc = some t → (∀ p ∈ acc, 0 < p.2) →
      ∀ p ∈ t, 0 < p.2 := by
  intro l
  induction l with
  | nil =>
    intro acc t h hacc
    simp only [tallyArticles] at h
    rw [← Option.some_inj.mp h]
    exact hacc
  | cons cid rest ih =>
    intro acc t h hacc
    cases hcc : findChild o cid with
    | none => simp only [tallyArticles, hcc] at h; cases h
    | some c =>
      simp only [tallyArticles, hcc] at h
      exact ih h (bumpArticle_pos hacc)

theorem tallyArticles_ne_nil {o : SantaRouteOptimizer} :
    ∀ {l : List Nat} {acc t : List (Nat × Nat)},
      tallyArticles o l acc = some t → acc ≠ [] → t ≠ [] := by
  intro l
  induction l with
  | nil =>
    intro acc t h hacc
    simp only [tallyArticles] at h
    rw [← Option.some_inj.mp h]
    exact hacc
  | cons cid rest ih =>
    intro acc t h _
    cases hcc : findChild o cid with
    | none => simp only [tallyArticles, hcc] at h; cases h
    | some c =>
      simp only [tallyArticles, hcc] at h
      exact ih h bumpArticle_ne_nil

/-! ## Lemmas about the ascending-id sort -/

theorem insertByKey_perm (p : Nat × Nat) :
    ∀ (l : List (Nat × Nat)), (insertByKey p l).Perm (p :: l) := by
  intro l
  induction l with
  | nil => exact List.Perm.refl _
  | cons q rest ih =>
    simp only [insertByKey]
    by_cases hle : p.1 ≤ q.1
    · rw [if_pos hle]
    · rw [if_neg hle]
      exact List.Perm.trans (List.Perm.cons q ih) (List.Perm.swap p q rest)

theorem sortByKey_perm : ∀ (l : List (Nat × Nat)), (sortByKey l).Perm l := by
  intro l
  induction l with
  | nil => exact List.Perm.refl _
  | cons p rest ih =>
    exact List.Perm.trans (insertByKey_perm p (sortByKey rest)) (List.Perm.cons p ih)

/-! ## Lemmas about the greedy fill -/

theorem itrunc_nonneg_eq_floor {q : ℚ} (h : 0 ≤ q) : itrunc q = ⌊q⌋ :=
  if_pos h

theorem itrunc_pos_imp {q : ℚ} (h : 0 < itrunc q) : 0 < q := by
  unfold itrunc at h
  by_cases hq : 0 ≤ q
  · rw [if_pos hq] at h
    rcases lt_or_eq_of_le hq with h' | h'
    · exact h'
    · exfalso
      rw [← h'] at h
      simp at h
  · rw [if_neg hq] at h
    push_neg at hq
    have hc : ⌈q⌉ ≤ 0 := Int.ceil_le.mpr (by push_cast; exact le_of_lt hq)
    omega

theorem fill_load_le {rem w : ℚ} {k : ℤ} (hrem : 0 ≤ rem) (_hw : w ≠ 0)
    (hk : 0 < k) (hle : k ≤ itrunc (rem / w)) : 0 < w ∧ (k : ℚ) * w ≤ rem := by
  have hq : 0 < rem / w := itrunc_pos_imp (lt_of_lt_of_le hk hle)
  have hwpos : 0 < w := by
    rcases div_pos_iff.mp hq with ⟨_, h⟩ | ⟨h, _⟩
    · exact h
    · exact absurd hrem (not_le.mpr h)
  refine ⟨hwpos, ?_⟩
  have hfe : itrunc (rem / w) = ⌊rem / w⌋ :=
    itrunc_nonneg_eq_floor (le_of_lt hq)
  rw [hfe] at hle
  have hc : (k : ℚ) ≤ rem / w :=
    le_trans (by exact_mod_cast hle) (Int.floor_le _)
  exact (le_div_iff₀ hwpos).mp hc

theorem manifestWeight_cons {gifts : List Gift} {p : Nat × Nat} {m : List (Nat × Nat)} :
    manifestWeight gifts (p :: m) =
      (p.2 : ℚ) * (((findGift gifts p.1).map Gift.weight).getD 0) + manifestWeight gifts m := by
  simp [manifestWeight]

theorem manifestVolume_cons {gifts : List Gift} {p : Nat × Nat} {m : List (Nat × Nat)} :
    manifestVolume gifts (p :: m) =
      (p.2 : ℚ) * (((findGift gifts p.1).map Gift.volume).getD 0) + manifestVolume gifts m := by
  simp [manifestVolume]

theorem fillLoop_total (gifts : List Gift) (maxW maxV : ℚ) :
    ∀ {items : List (Nat × Nat)} (curW curV : ℚ),
      (∀ p ∈ items, ∃ g, findGift gifts p.1 = some g ∧ g.weight ≠ 0 ∧ g.volume ≠ 0) →
      ∃ out, fillLoop gifts maxW maxV items curW curV = some out := by
  intro items
  induction items with
  | nil => intro curW curV _; exact ⟨[], rfl⟩
  | cons p rest ih =>
    intro curW curV hres
    obtain ⟨g, hg, hw, hv⟩ := hres p (List.mem_cons_self _ _)
    obtain ⟨a, need⟩ := p
    simp only [fillLoop, hg]
    rw [if_neg (by push_neg; exact ⟨hw, hv⟩)]
    have hrest : ∀ q ∈ rest, ∃ g', findGift gifts q.1 = some g' ∧ g'.weight ≠ 0 ∧ g'.volume ≠ 0 :=
      fun q hq => hres q (List.mem_cons_of_mem _ hq)
    by_cases hpos : 0 < min (min (itrunc ((maxW - curW) / g.weight))
        (itrunc ((maxV - curV) / g.volume))) (need : ℤ)
    · rw [if_pos hpos]
      obtain ⟨out, hout⟩ := ih _ _ hrest
      exact ⟨_, by rw [hout]; rfl⟩
    · rw [if_neg hpos]
      exact ih _ _ hrest

theorem fillLoop_pos {gifts : List Gift} {maxW maxV : ℚ} :
    ∀ {items : List (Nat × Nat)} {curW curV : ℚ} {out : List (Nat × Nat)},
      fillLoop gifts maxW maxV items curW curV = some out →
      ∀ p ∈ out, 0 < p.2 := by
  intro items
  induction items with
  | nil =>
    intro curW curV out h
    simp only [fillLoop] at h
    rw [← Option.some_inj.mp h]
    intro p hp
    cases hp
  | cons q rest ih =>
    intro curW curV out h
    obtain ⟨a, need⟩ := q
    cases hg : findGift gifts a with
    | none => simp only [fillLoop, hg] at h; cases h
    | some g =>
      simp only [fillLoop, hg] at h
      by_cases hz : g.weight = 0 ∨ g.volume = 0
      · rw [if_pos hz] at h; cases h
      · rw [if_neg hz] at h
        by_cases hpos : 0 < min (min (itrunc ((maxW - curW) / g.weight))
            (itrunc ((maxV - curV) / g.volume))) (need : ℤ)
        · rw [if_pos hpos] at h
          cases hrec : fillLoop gifts maxW maxV rest (curW +
              (↑(min (min (itrunc ((maxW - curW) / g.weight))
                (itrunc ((maxV - curV) / g.volume))) (need : ℤ)) : ℚ) * g.weight)
              (curV + (↑(min (min (itrunc ((maxW - curW) / g.weight))
                (itrunc ((maxV - curV) / g.volume))) (need : ℤ)) : ℚ) * g.volume) with
          | none => rw [hrec] at h; cases h
          | some out' =>
            rw [hrec] at h
            simp only [Option.map_some'] at h
            rw [← Option.some_inj.mp h]
            intro p hp
            rcases List.mem_cons.mp hp with rfl | hmem
            · simp only
              omega
            · exact ih hrec p hmem
        · rw [if_neg hpos] at h
          exact ih h

theorem fillLoop_keys {gifts : List Gift} {maxW maxV : ℚ} :
    ∀ {items : List (Nat × Nat)} {curW curV : ℚ} {out : List (Nat × Nat)},
      fillLoop gifts maxW maxV items curW curV = some out →
      ∀ p ∈ out, ∃ q ∈ items, q.1 = p.1 := by
  intro items
  induction items with
  | nil =>
    intro curW curV out h
    simp only [fillLoop] at h
    rw [← Option.some_inj.mp h]
    intro p hp
    cases hp
  | cons q rest ih =>
    intro curW curV out h
    obtain ⟨a, need⟩ := q
    cases hg : findGift gifts a with
    | none => simp only [fillLoop, hg] at h; cases h
    | some g =>
      simp only [fillLoop, hg] at h
      by_cases hz : g.weight = 0 ∨ g.volume = 0
      · rw [if_pos hz] at h; cases h
      · rw [if_neg hz] at h
        set k := min (min (itrunc ((maxW - curW) / g.weight))
          (itrunc ((maxV - curV) / g.volume))) (need : ℤ) with hkdef
        by_cases hpos : 0 < k
        · rw [if_pos hpos] at h
          cases hrec : fillLoop gifts maxW maxV rest (curW + (k : ℚ) * g.weight)
              (curV + (k : ℚ) * g.volume) with
          | none => rw [hrec] at h; cases h
          | some out' =>
            rw [hrec] at h
            simp only [Option.map_some'] at h
            rw [← Option.some_inj.mp h]
            intro p hp
            rcases List.mem_cons.mp hp with rfl | hmem
            · exact ⟨(a, need), List.mem_cons_self _ _, rfl⟩
            · obtain ⟨q', hq', he⟩ := ih hrec p hmem
              exact ⟨q', List.mem_cons_of_mem _ hq', he⟩
        · rw [if_neg hpos] at h
          intro p hp
          obtain ⟨q', hq', he⟩ := ih h p hp
          exact ⟨q', List.mem_cons_of_mem _ hq', he⟩

theorem fillLoop_sums {gifts : List Gift} {maxW maxV : ℚ} :
    ∀ {items : List (Nat × Nat)} {curW curV : ℚ} {out : List (Nat × Nat)},
      fillLoop gifts maxW maxV items curW curV = some out →
      0 ≤ maxW - curW → 0 ≤ maxV - curV →
      manifestWeight gifts out ≤ maxW - curW ∧ manifestVolume gifts out ≤ maxV - curV := by
  intro items
  induction items with
  | nil =>
    intro curW curV out h hW hV
    simp only [fillLoop] at h
    rw [← Option.some_inj.mp h]
    constructor <;> simp [manifestWeight, manifestVolume] <;> linarith
  | cons q rest ih =>
    intro curW curV out h hW hV
    obtain ⟨a, need⟩ := q
    cases hg : findGift gifts a with
    | none => simp only [fillLoop, hg] at h; cases h
    | some g =>
      simp only [fillLoop, hg] at h
      by_cases hz : g.weight = 0 ∨ g.volume = 0
      · rw [if_pos hz] at h; cases h
      · rw [if_neg hz] at h
        push_neg at hz
        set k := min (min (itrunc ((maxW - curW) / g.weight))
          (itrunc ((maxV - curV) / g.volume))) (need : ℤ) with hkdef
        have hkW : k ≤ itrunc ((maxW - curW) / g.weight) :=
          le_trans (min_le_left _ _) (min_le_left _ _)
        have hkV : k ≤ itrunc ((maxV - curV) / g.volume) :=
          le_trans (min_le_left _ _) (min_le_right _ _)
        by_cases hpos : 0 < k
        · rw [if_pos hpos] at h
          obtain ⟨hwpos, hmulW⟩ := fill_load_le hW hz.1 hpos hkW
          obtain ⟨hvpos, hmulV⟩ := fill_load_le hV hz.2 hpos hkV
          cases hrec : fillLoop gifts maxW maxV rest (curW + (k : ℚ) * g.weight)
              (curV + (k : ℚ) * g.volume) with
          | none => rw [hrec] at h; cases h
          | some out' =>
            rw [hrec] at h
            simp only [Option.map_some'] at h
            rw [← Option.some_inj.mp h]
            have hW' : 0 ≤ maxW - (curW + (k : ℚ) * g.weight) := by linarith
            have hV' : 0 ≤ maxV - (curV + (k : ℚ) * g.volume) := by linarith
            obtain ⟨ihW, ihV⟩ := ih hrec hW' hV'
            have h1 : (k.toNat : ℤ) = k := Int.toNat_of_nonneg (le_of_lt hpos)
            have hcast : ((k.toNat : ℕ) : ℚ) = (k : ℚ) := by exact_mod_cast h1
            constructor
            · rw [manifestWeight_cons]
              simp only [hg, Option.map_some', Option.getD_some]
              rw [hcast]
              linarith
            · rw [manifestVolume_cons]
              simp only [hg, Option.map_some', Option.getD_some]
              rw [hcast]
              linarith
        · rw [if_neg hpos] at h
          exact ih h hW hV

theorem fillLoop_noHeavy {gifts : List Gift} {maxW maxV : ℚ} :
    ∀ {items : List (Nat × Nat)} {curW curV : ℚ} {out : List (Nat × Nat)},
      fillLoop gifts maxW maxV items curW curV = some out →
      0 ≤ curW → 0 ≤ curV → 0 ≤ maxW - curW → 0 ≤ maxV - curV →
      ∀ p ∈ out, ∀ g, findGift gifts p.1 = some g →
        g.weight ≤ maxW ∧ g.volume ≤ maxV := by
  intro items
  induction items with
  | nil =>
    intro curW curV out h _ _ _ _
    simp only [fillLoop] at h
    rw [← Option.some_inj.mp h]
    intro p hp
    cases hp
  | cons q rest ih =>
    intro curW curV out h hcW hcV hW hV
    obtain ⟨a, need⟩ := q
    cases hg : findGift gifts a with
    | none => simp only [fillLoop, hg] at h; cases h
    | some g =>
      simp only [fillLoop, hg] at h
      by_cases hz : g.weight = 0 ∨ g.volume = 0
      · rw [if_pos hz] at h; cases h
      · rw [if_neg hz] at h
        push_neg at hz
        set k := min (min (itrunc ((maxW - curW) / g.weight))
          (itrunc ((maxV - curV) / g.volume))) (need : ℤ) with hkdef
        have hkW : k ≤ itrunc ((maxW - curW) / g.weight) :=
          le_trans (min_le_left _ _) (min_le_left _ _)
        have hkV : k ≤ itrunc ((maxV - curV) / g.volume) :=
          le_trans (min_le_left _ _) (min_le_right _ _)
        by_cases hpos : 0 < k
        · rw [if_pos hpos] at h
          obtain ⟨hwpos, hmulW⟩ := fill_load_le hW hz.1 hpos hkW
          obtain ⟨hvpos, hmulV⟩ := fill_load_le hV hz.2 hpos hkV
          have hk1 : (1 : ℚ) ≤ (k : ℚ) := by exact_mod_cast hpos
          cases hrec : fillLoop gifts maxW maxV rest (curW + (k : ℚ) * g.weight)
              (curV + (k : ℚ) * g.volume) with
          | none => rw [hrec] at h; cases h
          | some out' =>
            rw [hrec] at h
            simp only [Option.map_some'] at h
            rw [← Option.some_inj.mp h]
            intro p hp g' hg'
            rcases List.mem_cons.mp hp with rfl | hmem
            · simp only at hg'
              rw [hg] at hg'
              cases Option.some_inj.mp hg'
              constructor
              · nlinarith
              · nlinarith
            · have hcW' : 0 ≤ curW + (k : ℚ) * g.weight := by nlinarith
              have hcV' : 0 ≤ curV + (k : ℚ) * g.volume := by nlinarith
              have hW' : 0 ≤ maxW - (curW + (k : ℚ) * g.weight) := by linarith
              have hV' : 0 ≤ maxV - (curV + (k : ℚ) * g.volume) := by linarith
              exact ih hrec hcW' hcV' hW' hV' p hmem g' hg'
        · rw [if_neg hpos] at h
          exact ih h hcW hcV hW hV

theorem fillLoop_head {gifts : List Gift} {maxW maxV : ℚ} {a need : Nat}
    {rest : List (Nat × Nat)} {curW curV : ℚ} {out : List (Nat × Nat)} {g : Gift}
    (hg : findGift gifts a = some g)
    (hwpos : 0 < g.weight) (hwle : g.weight ≤ maxW - curW)
    (hvpos : 0 < g.volume) (hvle : g.volume ≤ maxV - curV)
    (hneed : 0 < need)
    (h : fillLoop gifts maxW maxV ((a, need) :: rest) curW curV = some out) :
    ∃ k out', out = (a, k) :: out' ∧ 0 < k := by
  simp only [fillLoop, hg] at h
  rw [if_neg (by push_neg; exact ⟨ne_of_gt hwpos, ne_of_gt hvpos⟩)] at h
  set k := min (min (itrunc ((maxW - curW) / g.weight))
    (itrunc ((maxV - curV) / g.volume))) (need : ℤ) with hkdef
  have h1W : (1 : ℤ) ≤ itrunc ((maxW - curW) / g.weight) := by
    have hq : (1 : ℚ) ≤ (maxW - curW) / g.weight :=
      (le_div_iff₀ hwpos).mpr (by rw [one_mul]; exact hwle)
    rw [itrunc_nonneg_eq_floor (le_trans zero_le_one hq)]
    exact Int.le_floor.mpr (by exact_mod_cast hq)
  have h1V : (1 : ℤ) ≤ itrunc ((maxV - curV) / g.volume) := by
    have hq : (1 : ℚ) ≤ (maxV - curV) / g.volume :=
      (le_div_iff₀ hvpos).mpr (by rw [one_mul]; exact hvle)
    rw [itrunc_nonneg_eq_floor (le_trans zero_le_one hq)]
    exact Int.le_floor.mpr (by exact_mod_cast hq)
  have hkpos : 0 < k := by
    rw [hkdef]
    have : (1 : ℤ) ≤ (need : ℤ) := by exact_mod_cast hneed
    omega
  rw [if_pos hkpos] at h
  cases hrec : fillLoop gifts maxW maxV rest (curW + (k : ℚ) * g.weight)
      (curV + (k : ℚ) * g.volume) with
  | none => rw [hrec] at h; cases h
  | some out' =>
    rw [hrec] at h
    simp only [Option.map_some'] at h
    exact ⟨k.toNat, out', (Option.some_inj.mp h).symm, by omega⟩

theorem fillLoop_eq_refFill {gifts : List Gift} {maxW maxV : ℚ} :
    ∀ {items : List (Nat × Nat)} {curW curV : ℚ} {out : List (Nat × Nat)},
      fillLoop gifts maxW maxV items curW curV = some out →
      (∀ p ∈ items, ∃ g, findGift gifts p.1 = some g ∧ 0 < g.weight ∧ 0 < g.volume) →
      0 ≤ maxW - curW → 0 ≤ maxV - curV →
      out = refFill gifts items (maxW - curW) (maxV - curV) := by
  intro items
  induction items with
  | nil =>
    intro curW curV out h _ _ _
    simp only [fillLoop] at h
    rw [← Option.some_inj.mp h]
    rfl
  | cons q rest ih =>
    intro curW curV out h hres hW hV
    obtain ⟨a, need⟩ := q
    obtain ⟨g, hg, hwpos, hvpos⟩ := hres (a, need) (List.mem_cons_self _ _)
    have hrest : ∀ p ∈ rest, ∃ g', findGift gifts p.1 = some g' ∧
        0 < g'.weight ∧ 0 < g'.volume :=
      fun p hp => hres p (List.mem_cons_of_mem _ hp)
    simp only [fillLoop, hg] at h
    rw [if_neg (by push_neg; exact ⟨ne_of_gt hwpos, ne_of_gt hvpos⟩)] at h
    have heqW : itrunc ((maxW - curW) / g.weight) = ⌊(maxW - curW) / g.weight⌋ :=
      itrunc_nonneg_eq_floor (div_nonneg hW (le_of_lt hwpos))
    have heqV : itrunc ((maxV - curV) / g.volume) = ⌊(maxV - curV) / g.volume⌋ :=
      itrunc_nonneg_eq_floor (div_nonneg hV (le_of_lt hvpos))
    rw [heqW, heqV] at h
    simp only [refFill, hg]
    set k := min (min ⌊(maxW - curW) / g.weight⌋ ⌊(maxV - curV) / g.volume⌋) (need : ℤ)
      with hkdef
    have hkW : k ≤ ⌊(maxW - curW) / g.weight⌋ :=
      le_trans (min_le_left _ _) (min_le_left _ _)
    have hkV : k ≤ ⌊(maxV - curV) / g.volume⌋ :=
      le_trans (min_le_left _ _) (min_le_right _ _)
    by_cases hpos : 0 < k
    · rw [if_pos hpos] at h
      rw [if_pos hpos]
      have hmulW : (k : ℚ) * g.weight ≤ maxW - curW := by
        have hc : (k : ℚ) ≤ (maxW - curW) / g.weight :=
          le_trans (by exact_mod_cast hkW) (Int.floor_le _)
        exact (le_div_iff₀ hwpos).mp hc
      have hmulV : (k : ℚ) * g.volume ≤ maxV - curV := by
        have hc : (k : ℚ) ≤ (maxV - curV) / g.volume :=
          le_trans (by exact_mod_cast hkV) (Int.floor_le _)
        exact (le_div_iff₀ hvpos).mp hc
      cases hrec : fillLoop gifts maxW maxV rest (curW + (k : ℚ) * g.weight)
          (curV + (k : ℚ) * g.volume) with
      | none => rw [hrec] at h; cases h
      | some out' =>
        rw [hrec] at h
        simp only [Option.map_some'] at h
        rw [← Option.some_inj.mp h]
        have hW' : 0 ≤ maxW - (curW + (k : ℚ) * g.weight) := by linarith
        have hV' : 0 ≤ maxV - (curV + (k : ℚ) * g.volume) := by linarith
        have hout' := ih hrec hrest hW' hV'
        have hargW : maxW - (curW + (k : ℚ) * g.weight) =
            (maxW - curW) - (k : ℚ) * g.weight := by ring
        have hargV : maxV - (curV + (k : ℚ) * g.volume) =
            (maxV - curV) - (k : ℚ) * g.volume := by ring
        rw [hargW, hargV] at hout'
        rw [hout']
    · rw [if_neg hpos] at h
      rw [if_neg hpos]
      exact ih h hrest hW hV

/-! ## Lemmas about calculate loading as a whole -/

theorem cargoGet_cons_self {a k : Nat} {rest : List (Nat × Nat)} :
    cargoGet ((a, k) :: rest) a = some k := by
  simp [cargoGet]

theorem isTooBig_false_weight {o : SantaRouteOptimizer} {c : MChild}
    (h : isTooBig o c = false) :
    ∀ w, c.giftW = some w → w ≤ o.max_weight := by
  intro w hw
  unfold isTooBig at h
  rw [hw] at h
  rcases Bool.or_eq_false_iff.mp h with ⟨h1, _⟩
  exact not_lt.mp (of_decide_eq_false h1)

theorem isTooBig_false_volume {o : SantaRouteOptimizer} {c : MChild}
    (h : isTooBig o c = false) :
    ∀ v, c.giftV = some v → v ≤ o.max_volume := by
  intro v hv
  unfold isTooBig at h
  rw [hv] at h
  rcases Bool.or_eq_false_iff.mp h with ⟨_, h2⟩
  exact not_lt.mp (of_decide_eq_false h2)

theorem calculate_loading_spec {o : SantaRouteOptimizer} {u : List Nat}
    (Hpos : ∀ c ∈ mergedChildren o, giftOk o.gifts c.article = true)
    (hlk : ∀ cid ∈ u, (findChild o cid).isSome)
    (hnb : ∀ cid ∈ u, ∀ c, findChild o cid = some c → isTooBig o c = false)
    (hne : u ≠ []) :
    ∃ loading, calculate_loading o u = some loading ∧ loading ≠ [] ∧
      (∀ p ∈ loading, 0 < p.2) ∧
      (∀ p ∈ loading, ¬ heavyArticle o p.1) ∧
      (∃ cid ∈ u, Deliverable o loading cid) := by
  obtain ⟨t, ht⟩ := tallyArticles_total (o := o) [] hlk
  have htkeys := tallyArticles_keys ht
  have htpos : ∀ p ∈ t, 0 < p.2 :=
    tallyArticles_pos ht (fun p hp => absurd hp (List.not_mem_nil _))
  have htne : t ≠ [] := by
    cases u with
    | nil => exact absurd rfl hne
    | cons cid rest =>
      have hc : (findChild o cid).isSome := hlk cid (List.mem_cons_self _ _)
      cases hcc : findChild o cid with
      | none => rw [hcc] at hc; cases hc
      | some c =>
        simp only [tallyArticles, hcc] at ht
        exact tallyArticles_ne_nil ht bumpArticle_ne_nil
  have hperm := sortByKey_perm t
  have hsne : sortByKey t ≠ [] := by
    intro hnil
    rw [hnil] at hperm
    exact htne (List.Perm.nil_eq hperm).symm
  have hkey_child : ∀ p ∈ sortByKey t,
      ∃ cid ∈ u, ∃ c, findChild o cid = some c ∧ c.article = p.1 := by
    intro p hp
    have hpt : p ∈ t := (List.Perm.mem_iff hperm).mp hp
    rcases htkeys p hpt with ⟨q, hq, _⟩ | hfound
    · cases hq
    · exact hfound
  have hkey_gift : ∀ p ∈ sortByKey t, ∃ g, findGift o.gifts p.1 = some g ∧
      0 < g.weight ∧ 0 < g.volume := by
    intro p hp
    obtain ⟨cid, _, c, hc, ha⟩ := hkey_child p hp
    have hok := Hpos c (findChild_mem hc)
    rw [ha] at hok
    exact giftOk_iff.mp hok
  have hkey_fits : ∀ p ∈ sortByKey t, ∃ g, findGift o.gifts p.1 = some g ∧
      0 < g.weight ∧ g.weight ≤ o.max_weight ∧ 0 < g.volume ∧ g.volume ≤ o.max_volume := by
    intro p hp
    obtain ⟨cid, hcid, c, hc, ha⟩ := hkey_child p hp
    obtain ⟨g, hg, hwpos, hvpos⟩ := hkey_gift p hp
    have hnb' := hnb cid hcid c hc
    have hgw := (mergedChild_giftW (findChild_mem hc)).1
    have hgv := (mergedChild_giftW (findChild_mem hc)).2
    rw [ha] at hgw hgv
    rw [hg] at hgw hgv
    simp only [Option.map_some'] at hgw hgv
    have hwle : g.weight ≤ o.max_weight := isTooBig_false_weight hnb' _ hgw
    have hvle : g.volume ≤ o.max_volume := isTooBig_false_volume hnb' _ hgv
    exact ⟨g, hg, hwpos, hwle, hvpos, hvle⟩
  obtain ⟨out, hout⟩ := fillLoop_total o.gifts o.max_weight o.max_volume 0 0
    (fun p hp => by
      obtain ⟨g, hg, hwpos, hvpos⟩ := hkey_gift p hp
      exact ⟨g, hg, ne_of_gt hwpos, ne_of_gt hvpos⟩)
  have hload : calculate_loading o u = some out := by
    simp only [calculate_loading, ht, hout]
  cases hs : sortByKey t with
  | nil => exact absurd hs hsne
  | cons p0 srest =>
    obtain ⟨a0, n0⟩ := p0
    obtain ⟨g0, hg0, hw0pos, hw0le, hv0pos, hv0le⟩ :=
      hkey_fits (a0, n0) (by rw [hs]; exact List.mem_cons_self _ _)
    have hn0 : 0 < n0 := htpos (a0, n0) ((List.Perm.mem_iff hperm).mp
      (by rw [hs]; exact List.mem_cons_self _ _))
    rw [hs] at hout
    obtain ⟨k, out', hcons, hkpos⟩ := fillLoop_head hg0 hw0pos
      (by rw [sub_zero]; exact hw0le) hv0pos (by rw [sub_zero]; exact hv0le) hn0 hout
    have hWnn : 0 ≤ o.max_weight := le_trans (le_of_lt hw0pos) hw0le
    have hVnn : 0 ≤ o.max_volume := le_trans (le_of_lt hv0pos) hv0le
    refine ⟨out, hload, by rw [hcons]; exact List.cons_ne_nil _ _,
      fillLoop_pos hout, ?_, ?_⟩
    · intro p hp
      rintro ⟨g, hg, hbig⟩
      have := fillLoop_noHeavy hout (le_refl 0) (le_refl 0)
        (by rw [sub_zero]; exact hWnn) (by rw [sub_zero]; exact hVnn) p hp g hg
      rcases hbig with hb | hb
      · exact absurd this.1 (not_le.mpr hb)
      · exact absurd this.2 (not_le.mpr hb)
    · obtain ⟨cid0, hcid0, c0, hc0, ha0⟩ :=
        hkey_child (a0, n0) (by rw [hs]; exact List.mem_cons_self _ _)
      refine ⟨cid0, hcid0, c0, hc0, ?_⟩
      rw [canDeliver_iff]
      refine ⟨k, ?_, ?_⟩
      · rw [ha0, hcons]
        exact cargoGet_cons_self
      · exact hkpos

theorem calculate_loading_sums {o : SantaRouteOptimizer} {u : List Nat}
    {loading : List (Nat × Nat)}
    (h : calculate_loading o u = some loading)
    (hW : 0 ≤ o.max_weight) (hV : 0 ≤ o.max_volume) :
    manifestWeight o.gifts loading ≤ o.max_weight ∧
    manifestVolume o.gifts loading ≤ o.max_volume := by
  unfold calculate_loading at h
  cases ht : tallyArticles o u [] with
  | none => rw [ht] at h; cases h
  | some t =>
    rw [ht] at h
    have := fillLoop_sums h (by rw [sub_zero]; exact hW) (by rw [sub_zero]; exact hV)
    rw [sub_zero, sub_zero] at this
    exact this

/-! ## Lemmas about the epilogue -/

theorem finalize_ok {o : SantaRouteOptimizer} (st : PState)
    (hs : o.speed_kmh ≠ 0) (hb : 0 < o.max_time_hours) :
    ∃ r, finalize o st = Outcome.ok r ∧
      r.route = st.route ++ [Event.refuel []] ∧ r.warnings = st.warnings := by
  unfold finalize
  rw [if_neg hs]
  by_cases ht : o.max_time_hours <
      st.totalTime + o.dist st.pos northPole / o.speed_kmh
  · rw [if_pos ht, if_neg (ne_of_gt hb)]
    exact ⟨_, rfl, rfl, rfl⟩
  · rw [if_neg ht]
    exact ⟨_, rfl, rfl, rfl⟩

theorem finalize_ok_inv {o : SantaRouteOptimizer} {st : PState} {r : RunResult}
    (h : finalize o st = Outcome.ok r) :
    r.route = st.route ++ [Event.refuel []] ∧ r.warnings = st.warnings := by
  unfold finalize at h
  by_cases hs : o.speed_kmh = 0
  · rw [if_pos hs] at h; cases h
  · rw [if_neg hs] at h
    by_cases ht : o.max_time_hours <
        st.totalTime + o.dist st.pos northPole / o.speed_kmh
    · rw [if_pos ht] at h
      by_cases hb : o.max_time_hours = 0
      · rw [if_pos hb] at h; cases h
      · rw [if_neg hb] at h
        cases h
        exact ⟨rfl, rfl⟩
    · rw [if_neg ht] at h
      cases h
      exact ⟨rfl, rfl⟩

theorem finalize_advisory {o : SantaRouteOptimizer} {st : PState} {r : RunResult}
    (h : finalize o st = Outcome.ok r) :
    ∀ s, r.advisory = some s ↔
      (o.max_time_hours < r.totalTime ∧
       s = r.totalTime / o.max_time_hours * o.speed_kmh) := by
  unfold finalize at h
  by_cases hs : o.speed_kmh = 0
  · rw [if_pos hs] at h; cases h
  · rw [if_neg hs] at h
    by_cases ht : o.max_time_hours <
        st.totalTime + o.dist st.pos northPole / o.speed_kmh
    · rw [if_pos ht] at h
      by_cases hb : o.max_time_hours = 0
      · rw [if_pos hb] at h; cases h
      · rw [if_neg hb] at h
        cases h
        intro s
        simp only [Option.some_inj]
        constructor
        · intro hsome
          exact ⟨ht, hsome.symm⟩
        · intro ⟨_, hsome⟩
          exact hsome.symm
    · rw [if_neg ht] at h
      cases h
      intro s
      simp only
      constructor
      · intro hsome
        cases hsome
      · intro ⟨hlt, _⟩
        exact absurd hlt ht

theorem scanBest_found {o : SantaRouteOptimizer} {cargo : List (Nat × Nat)}
    {pos : Coord} {l : List Nat} {cid : Nat} {d : ℚ}
    (h : scanBest o cargo pos none l = some (some (cid, d))) :
    cid ∈ l ∧ ∃ c, findChild o cid = some c ∧ canDeliver cargo c.article = true := by
  rcases scanBest_char h with ⟨hacc, _⟩ | ⟨l₁, l₂, c, hsplit, hlk, hcd, _, _, _, _⟩
  · cases hacc
  · constructor
    · rw [hsplit]
      exact List.mem_append.mpr (Or.inr (List.mem_cons_self _ _))
    · exact ⟨c, hlk, hcd⟩

/-! ## Per-run inductions for the advisory, the reload ceilings and the
delivery uniqueness -/

theorem deliveredIds_append {r₁ r₂ : List Event} :
    deliveredIds (r₁ ++ r₂) = deliveredIds r₁ ++ deliveredIds r₂ := by
  simp [deliveredIds, List.filterMap_append]

theorem deliveredIds_delivery {cid : Nat} :
    deliveredIds [Event.delivery cid] = [cid] := rfl

theorem deliveredIds_refuel {m : List (Nat × Nat)} :
    deliveredIds [Event.refuel m] = [] := rfl

theorem loopAux_advisory {o : SantaRouteOptimizer} :
    ∀ {fuel : Nat} {st : PState} {r : RunResult},
      loopAux o fuel st = some (Outcome.ok r) →
      ∀ s, r.advisory = some s ↔
        (o.max_time_hours < r.totalTime ∧
         s = r.totalTime / o.max_time_hours * o.speed_kmh) := by
  intro fuel
  induction fuel with
  | zero => intro st r h; cases h
  | succ fuel ih =>
    intro st r h
    rw [loopAux] at h
    cases hU : st.unvisited with
    | nil =>
      simp only [hU] at h
      exact finalize_advisory (Option.some_inj.mp h)
    | cons u0 urest =>
      simp only [hU] at h
      cases hsb : scanBest o st.cargo st.pos none (u0 :: urest) with
      | none => simp only [hsb] at h; cases Option.some_inj.mp h
      | some res =>
        cases res with
        | none =>
          simp only [hsb] at h
          cases hbad : undeliverableList o (u0 :: urest) with
          | none => simp only [hbad] at h; cases Option.some_inj.mp h
          | some bad =>
            simp only [hbad] at h
            by_cases hE : (removeIds (u0 :: urest) bad).isEmpty = true
            · rw [if_pos hE] at h
              exact finalize_advisory (Option.some_inj.mp h)
            · rw [if_neg hE] at h
              by_cases hs : o.speed_kmh = 0
              · rw [if_pos hs] at h; cases Option.some_inj.mp h
              · rw [if_neg hs] at h
                cases hld : calculate_loading o (removeIds (u0 :: urest) bad) with
                | none => simp only [hld] at h; cases Option.some_inj.mp h
                | some loading =>
                  simp only [hld] at h
                  exact ih h
        | some cd =>
          obtain ⟨cid, d⟩ := cd
          simp only [hsb] at h
          cases hc : findChild o cid with
          | none => simp only [hc] at h; cases Option.some_inj.mp h
          | some c =>
            simp only [hc] at h
            by_cases hs : o.speed_kmh = 0
            · rw [if_pos hs] at h; cases Option.some_inj.mp h
            · rw [if_neg hs] at h
              exact ih h

theorem loopAux_refuel_sums {o : SantaRouteOptimizer}
    (hW : 0 ≤ o.max_weight) (hV : 0 ≤ o.max_volume) :
    ∀ {fuel : Nat} {st : PState} {r : RunResult},
      loopAux o fuel st = some (Outcome.ok r) →
      (∀ m, Event.refuel m ∈ st.route →
        manifestWeight o.gifts m ≤ o.max_weight ∧
        manifestVolume o.gifts m ≤ o.max_volume) →
      ∀ m, Event.refuel m ∈ r.route →
        manifestWeight o.gifts m ≤ o.max_weight ∧
        manifestVolume o.gifts m ≤ o.max_volume := by
  intro fuel
  induction fuel with
  | zero => intro st r h; cases h
  | succ fuel ih =>
    intro st r h hst
    rw [loopAux] at h
    cases hU : st.unvisited with
    | nil =>
      simp only [hU] at h
      obtain ⟨hroute, _⟩ := finalize_ok_inv (Option.some_inj.mp h)
      intro m hm
      rw [hroute] at hm
      rcases List.mem_append.mp hm with hm' | hm'
      · exact hst m hm'
      · have hme : Event.refuel m = Event.refuel ([] : List (Nat × Nat)) :=
          List.mem_singleton.mp hm'
        have hm0 : m = [] := by simpa using hme
        subst hm0
        constructor
        · simpa [manifestWeight] using hW
        · simpa [manifestVolume] using hV
    | cons u0 urest =>
      simp only [hU] at h
      cases hsb : scanBest o st.cargo st.pos none (u0 :: urest) with
      | none => simp only [hsb] at h; cases Option.some_inj.mp h
      | some res =>
        cases res with
        | none =>
          simp only [hsb] at h
          cases hbad : undeliverableList o (u0 :: urest) with
          | none => simp only [hbad] at h; cases Option.some_inj.mp h
          | some bad =>
            simp only [hbad] at h
            by_cases hE : (removeIds (u0 :: urest) bad).isEmpty = true
            · rw [if_pos hE] at h
              obtain ⟨hroute, _⟩ := finalize_ok_inv (Option.some_inj.mp h)
              intro m hm
              rw [hroute] at hm
              rcases List.mem_append.mp hm with hm' | hm'
              · exact hst m hm'
              · have hme : Event.refuel m = Event.refuel ([] : List (Nat × Nat)) :=
                  List.mem_singleton.mp hm'
                have hm0 : m = [] := by simpa using hme
                subst hm0
                constructor
                · simpa [manifestWeight] using hW
                · simpa [manifestVolume] using hV
            · rw [if_neg hE] at h
              by_cases hs : o.speed_kmh = 0
              · rw [if_pos hs] at h; cases Option.some_inj.mp h
              · rw [if_neg hs] at h
                cases hld : calculate_loading o (removeIds (u0 :: urest) bad) with
                | none => simp only [hld] at h; cases Option.some_inj.mp h
                | some loading =>
                  simp only [hld] at h
                  refine ih h ?_
                  intro m hm
                  simp only at hm
                  rcases List.mem_append.mp hm with hm' | hm'
                  · exact hst m hm'
                  · have hme : Event.refuel m = Event.refuel loading :=
                      List.mem_singleton.mp hm'
                    have hm0 : m = loading := by simpa using hme
                    subst hm0
                    exact calculate_loading_sums hld hW hV
        | some cd =>
          obtain ⟨cid, d⟩ := cd
          simp only [hsb] at h
          cases hc : findChild o cid with
          | none => simp only [hc] at h; cases Option.some_inj.mp h
          | some c =>
            simp only [hc] at h
            by_cases hs : o.speed_kmh = 0
            · rw [if_pos hs] at h; cases Option.some_inj.mp h
            · rw [if_neg hs] at h
              refine ih h ?_
              intro m hm
              simp only at hm
              rcases List.mem_append.mp hm with hm' | hm'
              · exact hst m hm'
              · cases List.mem_singleton.mp hm'

theorem nodup_append_singleton {α : Type} {l : List α} {a : α}
    (h : l.Nodup) (ha : a ∉ l) : (l ++ [a]).Nodup :=
  List.Nodup.append h (List.nodup_singleton a)
    (fun _x hx hmem => ha ((List.mem_singleton.mp hmem) ▸ hx))

theorem loopAux_deliv_nodup {o : SantaRouteOptimizer} :
    ∀ {fuel : Nat} {st : PState} {r : RunResult},
      loopAux o fuel st = some (Outcome.ok r) →
      st.unvisited.Nodup →
      (deliveredIds st.route).Nodup →
      (∀ cid ∈ deliveredIds st.route, cid ∉ st.unvisited) →
      (deliveredIds r.route).Nodup := by
  intro fuel
  induction fuel with
  | zero => intro st r h; cases h
  | succ fuel ih =>
    intro st r h hN hD hDis
    rw [loopAux] at h
    cases hU : st.unvisited with
    | nil =>
      simp only [hU] at h
      obtain ⟨hroute, _⟩ := finalize_ok_inv (Option.some_inj.mp h)
      rw [hroute, deliveredIds_append, deliveredIds_refuel, List.append_nil]
      exact hD
    | cons u0 urest =>
      simp only [hU] at h
      cases hsb : scanBest o st.cargo st.pos none (u0 :: urest) with
      | none => simp only [hsb] at h; cases Option.some_inj.mp h
      | some res =>
        cases res with
        | none =>
          simp only [hsb] at h
          cases hbad : undeliverableList o (u0 :: urest) with
          | none => simp only [hbad] at h; cases Option.some_inj.mp h
          | some bad =>
            simp only [hbad] at h
            by_cases hE : (removeIds (u0 :: urest) bad).isEmpty = true
            · rw [if_pos hE] at h
              obtain ⟨hroute, _⟩ := finalize_ok_inv (Option.some_inj.mp h)
              rw [hroute, deliveredIds_append, deliveredIds_refuel, List.append_nil]
              exact hD
            · rw [if_neg hE] at h
              by_cases hs : o.speed_kmh = 0
              · rw [if_pos hs] at h; cases Option.some_inj.mp h
              · rw [if_neg hs] at h
                cases hld : calculate_loading o (removeIds (u0 :: urest) bad) with
                | none => simp only [hld] at h; cases Option.some_inj.mp h
                | some loading =>
                  simp only [hld] at h
                  refine ih h ?_ ?_ ?_
                  · exact removeIds_nodup (hU ▸ hN)
                  · simp only [deliveredIds_append, deliveredIds_refuel, List.append_nil]
                    exact hD
                  · simp only [deliveredIds_append, deliveredIds_refuel, List.append_nil]
                    intro cid hcid hmem
                    exact hDis cid hcid (hU ▸ (removeIds_mem.mp hmem).1)
        | some cd =>
          obtain ⟨cid, d⟩ := cd
          have hfound := scanBest_found hsb
          simp only [hsb] at h
          cases hc : findChild o cid with
          | none => simp only [hc] at h; cases Option.some_inj.mp h
          | some c =>
            simp only [hc] at h
            by_cases hs : o.speed_kmh = 0
            · rw [if_pos hs] at h; cases Option.some_inj.mp h
            · rw [if_neg hs] at h
              have hN' : (u0 :: urest).Nodup := hU ▸ hN
              refine ih h ?_ ?_ ?_
              · exact List.Nodup.erase _ hN'
              · simp only [deliveredIds_append, deliveredIds_delivery]
                refine nodup_append_singleton hD ?_
                intro hmem
                exact hDis cid hmem (hU ▸ hfound.1)
              · simp only [deliveredIds_append, deliveredIds_delivery]
                intro x hx hxe
                rcases List.mem_append.mp hx with hx' | hx'
                · exact hDis x hx' (hU ▸ List.erase_subset _ _ hxe)
                · rw [List.mem_singleton.mp hx'] at hxe
                  exact (List.Nodup.not_mem_erase hN') hxe

/-! ## The master run lemma: termination with full coverage -/

theorem tooBig_heavy {o : SantaRouteOptimizer} {c : MChild}
    (hmem : c ∈ mergedChildren o) (hbig : isTooBig o c = true) :
    heavyArticle o c.article := by
  obtain ⟨hgw, hgv⟩ := mergedChild_giftW hmem
  unfold isTooBig at hbig
  cases hg : findGift o.gifts c.article with
  | none =>
    rw [hg] at hgw hgv
    simp only [Option.map_none'] at hgw hgv
    rw [hgw, hgv] at hbig
    cases hbig
  | some g =>
    rw [hg] at hgw hgv
    simp only [Option.map_some'] at hgw hgv
    rw [hgw, hgv] at hbig
    rcases Bool.or_eq_true_iff.mp hbig with h1 | h1
    · exact ⟨g, hg, Or.inl (of_decide_eq_true h1)⟩
    · exact ⟨g, hg, Or.inr (of_decide_eq_true h1)⟩

theorem canDeliver_not_heavy {o : SantaRouteOptimizer} {cargo : List (Nat × Nat)}
    {a : Nat} (hcd : canDeliver cargo a = true)
    (hCargo : ∀ p ∈ cargo, ¬ heavyArticle o p.1) : ¬ heavyArticle o a := by
  obtain ⟨n, hget, _⟩ := canDeliver_iff.mp hcd
  exact hCargo (a, n) (cargoGet_mem hget)

theorem loopAux_master {o : SantaRouteOptimizer}
    (Hpos : ∀ c ∈ mergedChildren o, giftOk o.gifts c.article = true)
    (Hs : o.speed_kmh ≠ 0) (Hb : 0 < o.max_time_hours) :
    ∀ (fuel : Nat) (st : PState),
      st.unvisited.Nodup →
      (∀ cid ∈ st.unvisited, (findChild o cid).isSome) →
      (∀ p ∈ st.cargo, ¬ heavyArticle o p.1) →
      (2 * st.unvisited.length + 2 ≤ fuel ∨
        (2 * st.unvisited.length + 1 ≤ fuel ∧
         ∃ cid ∈ st.unvisited, Deliverable o st.cargo cid)) →
      ∃ r mid w',
        loopAux o fuel st = some (Outcome.ok r) ∧
        r.route = st.route ++ mid ++ [Event.refuel []] ∧
        r.warnings = st.warnings ++ w' ∧
        (∀ e ∈ mid, (∃ cid, e = Event.delivery cid) ∨
          ∃ m, e = Event.refuel m ∧ m ≠ [] ∧ ∀ p ∈ m, 0 < p.2) ∧
        w'.Nodup ∧
        (∀ cid ∈ w', cid ∈ st.unvisited ∧ tooBigId o cid) ∧
        (∀ cid ∈ st.unvisited, Event.delivery cid ∈ mid ∨ cid ∈ w') ∧
        (∀ cid, tooBigId o cid → Event.delivery cid ∉ mid) := by
  intro fuel
  induction fuel with
  | zero =>
    intro st _ _ _ hFuel
    rcases hFuel with h | ⟨h, _⟩ <;> omega
  | succ fuel ih =>
    intro st hN hLk hCargo hFuel
    cases hU : st.unvisited with
    | nil =>
      obtain ⟨r, hfin, hroute, hwarn⟩ := finalize_ok st Hs Hb
      refine ⟨r, [], [], ?_, ?_, ?_, ?_, List.nodup_nil, ?_, ?_, ?_⟩
      · rw [loopAux]
        simp only [hU]
        rw [hfin]
      · rw [hroute, List.append_nil]
      · rw [hwarn, List.append_nil]
      · intro e he; cases he
      · intro cid hmem; cases hmem
      · intro cid hmem; cases hmem
      · intro cid _ hmem; cases hmem
    | cons u0 urest =>
      have hLk' : ∀ cid ∈ u0 :: urest, (findChild o cid).isSome := by
        rw [← hU]; exact hLk
      have hN' : (u0 :: urest).Nodup := hU ▸ hN
      have hlen : st.unvisited.length = urest.length + 1 := by rw [hU]; rfl
      obtain ⟨res, hres⟩ := scanBest_total st.cargo st.pos none hLk'
      cases res with
      | some cd =>
        obtain ⟨cid, d⟩ := cd
        obtain ⟨hmem, c, hc, hcd⟩ := scanBest_found hres
        have hnotheavy : ¬ heavyArticle o c.article := canDeliver_not_heavy hcd hCargo
        have hN2 : ((u0 :: urest).erase cid).Nodup := List.Nodup.erase _ hN'
        have hLk2 : ∀ x ∈ (u0 :: urest).erase cid, (findChild o x).isSome :=
          fun x hx => hLk' x (List.erase_subset _ _ hx)
        have hCargo2 : ∀ p ∈ cargoDec st.cargo c.article, ¬ heavyArticle o p.1 := by
          intro p hp
          obtain ⟨q, hq, he⟩ := cargoDec_keys p hp
          rw [← he]
          exact hCargo q hq
        have hlen2 : ((u0 :: urest).erase cid).length = urest.length :=
          by rw [List.length_erase_of_mem hmem]; rfl
        have hFuel2 : 2 * ((u0 :: urest).erase cid).length + 2 ≤ fuel := by
          rw [hlen2]
          rw [hlen] at hFuel
          rcases hFuel with h | ⟨h, _⟩ <;> omega
        obtain ⟨r, mid', w'', hloop, hroute', hwarn', hmidP, hwN, hwMem, hcov, hheavy⟩ :=
          ih { unvisited := (u0 :: urest).erase cid,
               pos := c.coord,
               cargo := cargoDec st.cargo c.article,
               totalTime := st.totalTime + o.dist st.pos c.coord / o.speed_kmh +
                 o.time_per_stop_min / 60,
               route := st.route ++ [Event.delivery cid],
               warnings := st.warnings }
            hN2 hLk2 hCargo2 (Or.inl hFuel2)
        have hroute2 : r.route =
            (st.route ++ [Event.delivery cid]) ++ mid' ++ [Event.refuel []] := hroute'
        have hwarn2 : r.warnings = st.warnings ++ w'' := hwarn'
        have hwMem2 : ∀ x ∈ w'', x ∈ (u0 :: urest).erase cid ∧ tooBigId o x := hwMem
        have hcov2 : ∀ x ∈ (u0 :: urest).erase cid,
            Event.delivery x ∈ mid' ∨ x ∈ w'' := hcov
        refine ⟨r, Event.delivery cid :: mid', w'', ?_, ?_, hwarn2, ?_, hwN, ?_, ?_, ?_⟩
        · rw [loopAux]
          simp only [hU, hres, hc]
          rw [if_neg Hs]
          exact hloop
        · rw [hroute2]
          simp
        · intro e he
          rcases List.mem_cons.mp he with rfl | he'
          · exact Or.inl ⟨cid, rfl⟩
          · exact hmidP e he'
        · intro x hx
          obtain ⟨hx1, hx2⟩ := hwMem2 x hx
          exact ⟨List.erase_subset _ _ hx1, hx2⟩
        · intro x hx
          by_cases hxe : x = cid
          · subst hxe
            exact Or.inl (List.mem_cons_self _ _)
          · have hx' : x ∈ (u0 :: urest).erase cid :=
              (List.mem_erase_of_ne hxe).mpr hx
            rcases hcov2 x hx' with h1 | h1
            · exact Or.inl (List.mem_cons_of_mem _ h1)
            · exact Or.inr h1
        · intro x hbigx hmemx
          rcases List.mem_cons.mp hmemx with hhd | htl
          · have hxcid : x = cid := by injection hhd
            subst hxcid
            obtain ⟨c₂, hc₂, hbig₂⟩ := hbigx
            rw [hc] at hc₂
            cases Option.some_inj.mp hc₂
            exact hnotheavy (tooBig_heavy (findChild_mem hc) hbig₂)
          · exact hheavy x hbigx htl
      | none =>
        obtain ⟨_, hnone⟩ := scanBest_none_char hres
        obtain ⟨bad, hbad⟩ := undeliverableList_total hLk'
        have hbadN : bad.Nodup := List.Sublist.nodup (undeliverableList_sublist hbad) hN'
        have hbadSound := undeliverableList_sound hbad
        have hbadSub : ∀ x ∈ bad, x ∈ u0 :: urest :=
          fun x hx => List.Sublist.mem hx (undeliverableList_sublist hbad)
        by_cases hE : (removeIds (u0 :: urest) bad).isEmpty = true
        · obtain ⟨r, hfin, hroute, hwarn⟩ := finalize_ok
            { unvisited := removeIds (u0 :: urest) bad,
              pos := st.pos,
              cargo := st.cargo,
              totalTime := st.totalTime,
              route := st.route,
              warnings := st.warnings ++ bad } Hs Hb
          have hroute2 : r.route = st.route ++ [Event.refuel []] := hroute
          have hwarn2 : r.warnings = st.warnings ++ bad := hwarn
          refine ⟨r, [], bad, ?_, ?_, hwarn2, ?_, hbadN, ?_, ?_, ?_⟩
          · rw [loopAux]
            simp only [hU, hres, hbad]
            rw [if_pos hE, hfin]
          · rw [hroute2, List.append_nil]
          · intro e he; cases he
          · intro x hx
            obtain ⟨c, hc, hbig⟩ := hbadSound x hx
            exact ⟨hbadSub x hx, ⟨c, hc, hbig⟩⟩
          · intro x hx
            exact Or.inr (removeIds_isEmpty.mp hE x hx)
          · intro x _ hmem; cases hmem
        · have hne : removeIds (u0 :: urest) bad ≠ [] := by
            intro h0
            exact hE (by rw [h0]; rfl)
          have hLk3 : ∀ x ∈ removeIds (u0 :: urest) bad, (findChild o x).isSome :=
            fun x hx => hLk' x (removeIds_mem.mp hx).1
          have hnb3 : ∀ x ∈ removeIds (u0 :: urest) bad, ∀ c,
              findChild o x = some c → isTooBig o c = false := by
            intro x hx c hc
            obtain ⟨hxl, hxb⟩ := removeIds_mem.mp hx
            by_contra hbig
            rw [Bool.not_eq_false] at hbig
            exact hxb (undeliverableList_complete hbad x hxl c hc hbig)
          obtain ⟨loading, hld, hldne, hldpos, hldheavy, hDel⟩ :=
            calculate_loading_spec Hpos hLk3 hnb3 hne
          have hN3 : (removeIds (u0 :: urest) bad).Nodup := removeIds_nodup hN'
          have hFuel3 : 2 * (removeIds (u0 :: urest) bad).length + 1 ≤ fuel := by
            have hle : (removeIds (u0 :: urest) bad).length ≤ urest.length + 1 := by
              have := removeIds_length_le (u0 :: urest) bad
              simpa using this
            rw [hlen] at hFuel
            rcases hFuel with h | ⟨h, cid', hcid', c', hc', hcd'⟩
            · omega
            · exfalso
              rw [hU] at hcid'
              rw [hnone cid' hcid' c' hc'] at hcd'
              cases hcd'
          obtain ⟨r, mid', w'', hloop, hroute', hwarn', hmidP, hwN, hwMem, hcov, hheavy⟩ :=
            ih { unvisited := removeIds (u0 :: urest) bad,
                 pos := northPole,
                 cargo := loading,
                 totalTime := st.totalTime + o.dist st.pos northPole / o.speed_kmh,
                 route := st.route ++ [Event.refuel loading],
                 warnings := st.warnings ++ bad }
              hN3 hLk3 hldheavy (Or.inr ⟨hFuel3, hDel⟩)
          have hroute2 : r.route =
              (st.route ++ [Event.refuel loading]) ++ mid' ++ [Event.refuel []] := hroute'
          have hwarn2 : r.warnings = (st.warnings ++ bad) ++ w'' := hwarn'
          have hwMem2 : ∀ x ∈ w'', x ∈ removeIds (u0 :: urest) bad ∧ tooBigId o x := hwMem
          have hcov2 : ∀ x ∈ removeIds (u0 :: urest) bad,
              Event.delivery x ∈ mid' ∨ x ∈ w'' := hcov
          refine ⟨r, Event.refuel loading :: mid', bad ++ w'', ?_, ?_, ?_, ?_, ?_, ?_, ?_, ?_⟩
          · rw [loopAux]
            simp only [hU, hres, hbad]
            rw [if_neg hE, if_neg Hs]
            simp only [hld]
            exact hloop
          · rw [hroute2]
            simp
          · rw [hwarn2]
            simp
          · intro e he
            rcases List.mem_cons.mp he with rfl | he'
            · exact Or.inr ⟨loading, rfl, hldne, hldpos⟩
            · exact hmidP e he'
          · refine List.Nodup.append hbadN hwN ?_
            intro x hxb hxw
            exact (removeIds_mem.mp (hwMem2 x hxw).1).2 hxb
          · intro x hx
            rcases List.mem_append.mp hx with hxb | hxw
            · obtain ⟨c, hc, hbig⟩ := hbadSound x hxb
              exact ⟨hbadSub x hxb, ⟨c, hc, hbig⟩⟩
            · obtain ⟨hx1, hx2⟩ := hwMem2 x hxw
              exact ⟨(removeIds_mem.mp hx1).1, hx2⟩
          · intro x hx
            by_cases hxb : x ∈ bad
            · exact Or.inr (List.mem_append.mpr (Or.inl hxb))
            · have hx' : x ∈ removeIds (u0 :: urest) bad :=
                removeIds_mem.mpr ⟨hx, hxb⟩
              rcases hcov2 x hx' with h1 | h1
              · exact Or.inl (List.mem_cons_of_mem _ h1)
              · exact Or.inr (List.mem_append.mpr (Or.inr h1))
          · intro x hbigx hmemx
            rcases List.mem_cons.mp hmemx with hhd | htl
            · cases hhd
            · exact hheavy x hbigx htl

/-! ## The run-level master lemma -/

theorem initUnvisited_lookup {o : SantaRouteOptimizer} :
    ∀ cid ∈ initUnvisited o, (findChild o cid).isSome := by
  intro cid hc
  rw [initUnvisited, List.mem_dedup] at hc
  obtain ⟨c, hcm, hcid⟩ := List.mem_map.mp hc
  unfold findChild
  cases hf : (mergedChildren o).find? (fun x => x.id == cid) with
  | some _ => rfl
  | none =>
    exfalso
    apply List.find?_eq_none.mp hf c hcm
    rw [hcid]
    simp

theorem optimize_route_master {o : SantaRouteOptimizer}
    (Hpos : ∀ c ∈ mergedChildren o, giftOk o.gifts c.article = true)
    (Hs : o.speed_kmh ≠ 0) (Hb : 0 < o.max_time_hours) :
    ∃ r mid,
      optimize_route o = some (Outcome.ok r) ∧
      r.route = mid ++ [Event.refuel []] ∧
      (∀ e ∈ mid, (∃ cid, e = Event.delivery cid) ∨
        ∃ m, e = Event.refuel m ∧ m ≠ [] ∧ ∀ p ∈ m, 0 < p.2) ∧
      r.warnings.Nodup ∧
      (∀ cid ∈ r.warnings, cid ∈ initUnvisited o ∧ tooBigId o cid) ∧
      (∀ cid ∈ initUnvisited o, Event.delivery cid ∈ mid ∨ cid ∈ r.warnings) ∧
      (∀ cid, tooBigId o cid → Event.delivery cid ∉ mid) := by
  obtain ⟨r, mid, w', hloop, hroute, hwarn, hmidP, hwN, hwMem, hcov, hheavy⟩ :=
    loopAux_master Hpos Hs Hb (2 * (initUnvisited o).length + 2)
      { unvisited := initUnvisited o,
        pos := northPole,
        cargo := [],
        totalTime := 0,
        route := [],
        warnings := [] }
      (List.nodup_dedup _) initUnvisited_lookup
      (fun p hp => absurd hp (List.not_mem_nil _))
      (Or.inl (le_refl _))
  have hroute2 : r.route = mid ++ [Event.refuel []] := by
    rw [hroute]; rfl
  have hwarn2 : r.warnings = w' := by
    rw [hwarn]; rfl
  refine ⟨r, mid, hloop, hroute2, hmidP, ?_, ?_, ?_, hheavy⟩
  · rw [hwarn2]; exact hwN
  · rw [hwarn2]; exact hwMem
  · intro cid hcid
    rcases hcov cid hcid with h1 | h1
    · exact Or.inl h1
    · rw [hwarn2]; exact Or.inr h1

/-! ## Claim C1 -/

/-- Claim C1, as stated, is false: the post-loop budget check does not use
the trip time budget supplied in the capacity-profile input.  At a
profile whose trip time budget is 5, the optimizer still uses 7. -/
theorem claim_C1_counterexample :
    (initOptimizer [] [] distZero
      { max_weight := 10, max_volume := 10, speed_kmh := 1,
        time_per_stop_min := 5, trip_time_budget := 5 }).max_time_hours ≠
    (SleighSpecs.mk 10 10 1 5 5).trip_time_budget := by
  decide

/-- Claim C1 (amended): of the capacity-profile input, maximum weight,
maximum volume, speed and per-stop duration are taken from the input as
supplied, but the trip time budget used by the post-loop check is the
fixed constant 7 hours; the supplied trip time budget is ignored. -/
theorem claim_C1_amended (children : List Child) (gifts : List Gift)
    (dist : Coord → Coord → ℚ) (specs : SleighSpecs) :
    (initOptimizer children gifts dist specs).max_weight = specs.max_weight ∧
    (initOptimizer children gifts dist specs).max_volume = specs.max_volume ∧
    (initOptimizer children gifts dist specs).speed_kmh = specs.speed_kmh ∧
    (initOptimizer children gifts dist specs).time_per_stop_min =
      specs.time_per_stop_min ∧
    (initOptimizer children gifts dist specs).max_time_hours = 7 :=
  ⟨rfl, rfl, rfl, rfl, rfl⟩

/-! ## Claim C2 -/

/-- Claim C2, as stated, is false on the code: with a catalog whose
fallback item (article 0) carries a valid zero per-unit weight and
volume, the planning loop raises an exception — `calculate_loading`
computes `int((max_weight - 0) / 0.0)`, which raises, modelled as the
crash outcome. -/
theorem claim_C2_counterexample :
    findGift exCoalO.gifts 0 = some { article := 0, weight := 0, volume := 0 } ∧
    optimize_route exCoalO = some Outcome.crash := by
  constructor
  · decide
  · decide

/-- Claim C2 (amended): the planning loop raises no exception provided
every assigned item resolves in the catalog with positive per-unit
weight and volume (zero footprints make the maximum-loadable-units
division raise); speed must also be positive. -/
theorem claim_C2_amended (children : List Child) (gifts : List Gift)
    (dist : Coord → Coord → ℚ) (specs : SleighSpecs)
    (Hpos : ∀ c ∈ mergedChildren (initOptimizer children gifts dist specs),
      giftOk gifts c.article = true)
    (Hs : 0 < specs.speed_kmh) :
    ∃ r, optimize_route (initOptimizer children gifts dist specs) =
      some (Outcome.ok r) := by
  obtain ⟨r, _, hloop, _⟩ :=
    optimize_route_master (o := initOptimizer children gifts dist specs)
      Hpos (ne_of_gt Hs) (by norm_num [initOptimizer])
  exact ⟨r, hloop⟩

/-- Witness for claim C2 (amended) at a concrete one-child input. -/
theorem claim_C2_amended_witness :
    ∃ r, optimize_route exOneO = some (Outcome.ok r) :=
  claim_C2_amended
    [{ id := 1, lat := 1, lon := 1, naughty := false, wish := 5 }]
    [{ article := 0, weight := 1, volume := 1 },
     { article := 5, weight := 2, volume := 3 }]
    distZero exSpecs (by decide) (by decide)

/-! ## Claim C3 -/

/-- Claim C3, as stated, is false on the code: a catalog that resolves
every assigned item (here to a zero-footprint coal article) and a
positive speed do not suffice — the run crashes instead of terminating
with every recipient served or warned. -/
theorem claim_C3_counterexample :
    (∀ c ∈ mergedChildren exCoalO, giftResolves exCoalO.gifts c.article = true) ∧
    0 < exCoalO.speed_kmh ∧
    ¬ ∃ r, optimize_route exCoalO = some (Outcome.ok r) := by
  refine ⟨by decide, by decide, ?_⟩
  rintro ⟨r, hr⟩
  have hcrash : optimize_route exCoalO = some Outcome.crash := by decide
  rw [hcrash] at hr
  cases Option.some_inj.mp hr

/-- Claim C3 (amended): provided every assigned item resolves in the
catalog with positive per-unit weight and volume (not merely resolves),
and speed is positive, `optimize_route` terminates normally, and every
recipient either receives a delivery event or is dropped with a
warning. -/
theorem claim_C3_amended (children : List Child) (gifts : List Gift)
    (dist : Coord → Coord → ℚ) (specs : SleighSpecs)
    (Hpos : ∀ c ∈ mergedChildren (initOptimizer children gifts dist specs),
      giftOk gifts c.article = true)
    (Hs : 0 < specs.speed_kmh) :
    ∃ r, optimize_route (initOptimizer children gifts dist specs) =
        some (Outcome.ok r) ∧
      ∀ cid ∈ (mergedChildren (initOptimizer children gifts dist specs)).map
          MChild.id,
        Event.delivery cid ∈ r.route ∨ cid ∈ r.warnings := by
  obtain ⟨r, mid, hloop, hroute, _, _, _, hcov, _⟩ :=
    optimize_route_master (o := initOptimizer children gifts dist specs)
      Hpos (ne_of_gt Hs) (by norm_num [initOptimizer])
  refine ⟨r, hloop, ?_⟩
  intro cid hcid
  have hcid' : cid ∈ initUnvisited (initOptimizer children gifts dist specs) := by
    rw [initUnvisited, List.mem_dedup]
    exact hcid
  rcases hcov cid hcid' with h1 | h1
  · refine Or.inl ?_
    rw [hroute]
    exact List.mem_append.mpr (Or.inl h1)
  · exact Or.inr h1

/-- Witness for claim C3 (amended) at a concrete one-child input. -/
theorem claim_C3_amended_witness :
    ∃ r, optimize_route exOneO = some (Outcome.ok r) ∧
      ∀ cid ∈ (mergedChildren exOneO).map MChild.id,
        Event.delivery cid ∈ r.route ∨ cid ∈ r.warnings :=
  claim_C3_amended
    [{ id := 1, lat := 1, lon := 1, naughty := false, wish := 5 }]
    [{ article := 0, weight := 1, volume := 1 },
     { article := 5, weight := 2, volume := 3 }]
    distZero exSpecs (by decide) (by decide)

/-! ## The cargo manifest at every moment -/

theorem listSum_cargoDec_le (f : Nat → ℚ) :
    ∀ (l : List (Nat × Nat)) (a : Nat), (∀ p ∈ l, 0 ≤ f p.1) →
      ((cargoDec l a).map (fun p => (p.2 : ℚ) * f p.1)).sum ≤
        (l.map (fun p => (p.2 : ℚ) * f p.1)).sum := by
  intro l
  induction l with
  | nil => intro a _; simp [cargoDec]
  | cons q rest ih =>
    intro a hnn
    simp only [cargoDec]
    by_cases hq : (q.1 == a) = true
    · rw [if_pos hq]
      by_cases hz : (q.2 - 1 == 0) = true
      · rw [if_pos hz]
        simp only [List.map_cons, List.sum_cons]
        have h1 : 0 ≤ (q.2 : ℚ) * f q.1 :=
          mul_nonneg (Nat.cast_nonneg _) (hnn q (List.mem_cons_self _ _))
        linarith
      · rw [if_neg hz]
        simp only [List.map_cons, List.sum_cons]
        have h2 : ((q.2 - 1 : Nat) : ℚ) ≤ (q.2 : ℚ) := by
          exact_mod_cast Nat.sub_le q.2 1
        have h1 : ((q.2 - 1 : Nat) : ℚ) * f q.1 ≤ (q.2 : ℚ) * f q.1 :=
          mul_le_mul_of_nonneg_right h2 (hnn q (List.mem_cons_self _ _))
        linarith
    · rw [if_neg hq]
      simp only [List.map_cons, List.sum_cons]
      have := ih a (fun p hp => hnn p (List.mem_cons_of_mem _ hp))
      linarith

theorem manifestWeight_cargoDec_le {gifts : List Gift} {l : List (Nat × Nat)} {a : Nat}
    (h : ∀ p ∈ l, 0 ≤ (((findGift gifts p.1).map Gift.weight).getD 0)) :
    manifestWeight gifts (cargoDec l a) ≤ manifestWeight gifts l :=
  listSum_cargoDec_le (fun x => ((findGift gifts x).map Gift.weight).getD 0) l a h

theorem manifestVolume_cargoDec_le {gifts : List Gift} {l : List (Nat × Nat)} {a : Nat}
    (h : ∀ p ∈ l, 0 ≤ (((findGift gifts p.1).map Gift.volume).getD 0)) :
    manifestVolume gifts (cargoDec l a) ≤ manifestVolume gifts l :=
  listSum_cargoDec_le (fun x => ((findGift gifts x).map Gift.volume).getD 0) l a h

theorem fillLoop_posfoot {gifts : List Gift} {maxW maxV : ℚ} :
    ∀ {items : List (Nat × Nat)} {curW curV : ℚ} {out : List (Nat × Nat)},
      fillLoop gifts maxW maxV items curW curV = some out →
      0 ≤ maxW - curW → 0 ≤ maxV - curV →
      ∀ p ∈ out, ∃ g, findGift gifts p.1 = some g ∧ 0 < g.weight ∧ 0 < g.volume := by
  intro items
  induction items with
  | nil =>
    intro curW curV out h _ _
    simp only [fillLoop] at h
    rw [← Option.some_inj.mp h]
    intro p hp
    cases hp
  | cons q rest ih =>
    intro curW curV out h hW hV
    obtain ⟨a, need⟩ := q
    cases hg : findGift gifts a with
    | none => simp only [fillLoop, hg] at h; cases h
    | some g =>
      simp only [fillLoop, hg] at h
      by_cases hz : g.weight = 0 ∨ g.volume = 0
      · rw [if_pos hz] at h; cases h
      · rw [if_neg hz] at h
        push_neg at hz
        set k := min (min (itrunc ((maxW - curW) / g.weight))
          (itrunc ((maxV - curV) / g.volume))) (need : ℤ) with hkdef
        have hkW : k ≤ itrunc ((maxW - curW) / g.weight) :=
          le_trans (min_le_left _ _) (min_le_left _ _)
        have hkV : k ≤ itrunc ((maxV - curV) / g.volume) :=
          le_trans (min_le_left _ _) (min_le_right _ _)
        by_cases hpos : 0 < k
        · rw [if_pos hpos] at h
          obtain ⟨hwpos, hmulW⟩ := fill_load_le hW hz.1 hpos hkW
          obtain ⟨hvpos, hmulV⟩ := fill_load_le hV hz.2 hpos hkV
          cases hrec : fillLoop gifts maxW maxV rest (curW + (k : ℚ) * g.weight)
              (curV + (k : ℚ) * g.volume) with
          | none => rw [hrec] at h; cases h
          | some out' =>
            rw [hrec] at h
            simp only [Option.map_some'] at h
            rw [← Option.some_inj.mp h]
            intro p hp
            rcases List.mem_cons.mp hp with rfl | hmem
            · exact ⟨g, hg, hwpos, hvpos⟩
            · have hW' : 0 ≤ maxW - (curW + (k : ℚ) * g.weight) := by linarith
              have hV' : 0 ≤ maxV - (curV + (k : ℚ) * g.volume) := by linarith
              exact ih hrec hW' hV' p hmem
        · rw [if_neg hpos] at h
          exact ih h hW hV

theorem calculate_loading_foot_nonneg {o : SantaRouteOptimizer} {u : List Nat}
    {loading : List (Nat × Nat)}
    (h : calculate_loading o u = some loading)
    (hW : 0 ≤ o.max_weight) (hV : 0 ≤ o.max_volume) :
    ∀ p ∈ loading,
      0 ≤ (((findGift o.gifts p.1).map Gift.weight).getD 0) ∧
      0 ≤ (((findGift o.gifts p.1).map Gift.volume).getD 0) := by
  unfold calculate_loading at h
  cases ht : tallyArticles o u [] with
  | none => rw [ht] at h; cases h
  | some t =>
    rw [ht] at h
    have hfoot := fillLoop_posfoot h (by rw [sub_zero]; exact hW)
      (by rw [sub_zero]; exact hV)
    intro p hp
    obtain ⟨g, hg, hwp, hvp⟩ := hfoot p hp
    rw [hg]
    simp only [Option.map_some', Option.getD_some]
    exact ⟨le_of_lt hwp, le_of_lt hvp⟩

theorem cargoStates_head_mem (o : SantaRouteOptimizer) (fuel : Nat) (st : PState) :
    st.cargo ∈ cargoStates o (fuel + 1) st := by
  rw [cargoStates]
  exact List.mem_cons_self _ _

theorem cargoStates_bounded {o : SantaRouteOptimizer}
    (hW : 0 ≤ o.max_weight) (hV : 0 ≤ o.max_volume) :
    ∀ (fuel : Nat) (st : PState),
      manifestWeight o.gifts st.cargo ≤ o.max_weight →
      manifestVolume o.gifts st.cargo ≤ o.max_volume →
      (∀ p ∈ st.cargo,
        0 ≤ (((findGift o.gifts p.1).map Gift.weight).getD 0) ∧
        0 ≤ (((findGift o.gifts p.1).map Gift.volume).getD 0)) →
      ∀ m ∈ cargoStates o fuel st,
        manifestWeight o.gifts m ≤ o.max_weight ∧
        manifestVolume o.gifts m ≤ o.max_volume := by
  intro fuel
  induction fuel with
  | zero => intro st _ _ _ m hm; cases hm
  | succ fuel ih =>
    intro st hsW hsV hnn m hm
    rw [cargoStates] at hm
    rcases List.mem_cons.mp hm with rfl | hm'
    · exact ⟨hsW, hsV⟩
    · cases hU : st.unvisited with
      | nil => simp only [hU] at hm'; cases hm'
      | cons u0 urest =>
        simp only [hU] at hm'
        cases hsb : scanBest o st.cargo st.pos none (u0 :: urest) with
        | none => simp only [hsb] at hm'; cases hm'
        | some res =>
          cases res with
          | none =>
            simp only [hsb] at hm'
            cases hbad : undeliverableList o (u0 :: urest) with
            | none => simp only [hbad] at hm'; cases hm'
            | some bad =>
              simp only [hbad] at hm'
              by_cases hE : (removeIds (u0 :: urest) bad).isEmpty = true
              · rw [if_pos hE] at hm'; cases hm'
              · rw [if_neg hE] at hm'
                by_cases hs : o.speed_kmh = 0
                · rw [if_pos hs] at hm'; cases hm'
                · rw [if_neg hs] at hm'
                  cases hld : calculate_loading o (removeIds (u0 :: urest) bad) with
                  | none => simp only [hld] at hm'; cases hm'
                  | some loading =>
                    simp only [hld] at hm'
                    obtain ⟨hldW, hldV⟩ := calculate_loading_sums hld hW hV
                    exact ih _ hldW hldV (calculate_loading_foot_nonneg hld hW hV) m hm'
          | some cd =>
            obtain ⟨cid, d⟩ := cd
            simp only [hsb] at hm'
            cases hc : findChild o cid with
            | none => simp only [hc] at hm'; cases hm'
            | some c =>
              simp only [hc] at hm'
              by_cases hs : o.speed_kmh = 0
              · rw [if_pos hs] at hm'; cases hm'
              · rw [if_neg hs] at hm'
                have hnn2 : ∀ p ∈ cargoDec st.cargo c.article,
                    0 ≤ (((findGift o.gifts p.1).map Gift.weight).getD 0) ∧
                    0 ≤ (((findGift o.gifts p.1).map Gift.volume).getD 0) := by
                  intro p hp
                  obtain ⟨q, hq, he⟩ := cargoDec_keys p hp
                  rw [← he]
                  exact hnn q hq
                have hdW : manifestWeight o.gifts (cargoDec st.cargo c.article) ≤
                    o.max_weight :=
                  le_trans (manifestWeight_cargoDec_le (fun p hp => (hnn p hp).1)) hsW
                have hdV : manifestVolume o.gifts (cargoDec st.cargo c.article) ≤
                    o.max_volume :=
                  le_trans (manifestVolume_cargoDec_le (fun p hp => (hnn p hp).2)) hsV
                exact ih _ hdW hdV hnn2 m hm'

/-! ## Claim C4 -/

/-- Claim C4: in every completed run with nonnegative capacity maxima,
every reload event's manifest satisfies both the weight and the volume
ceiling, and the cargo manifest at every moment of the run — every
value the onboard manifest takes, as recorded by the per-iteration
snapshots of `optimizeCargoStates` — satisfies them as well. -/
theorem claim_C4 (o : SantaRouteOptimizer) (r : RunResult)
    (hW : 0 ≤ o.max_weight) (hV : 0 ≤ o.max_volume)
    (h : optimize_route o = some (Outcome.ok r)) :
    (∀ m, Event.refuel m ∈ r.route →
      manifestWeight o.gifts m ≤ o.max_weight ∧
      manifestVolume o.gifts m ≤ o.max_volume) ∧
    (∀ cargo ∈ optimizeCargoStates o,
      manifestWeight o.gifts cargo ≤ o.max_weight ∧
      manifestVolume o.gifts cargo ≤ o.max_volume) := by
  constructor
  · unfold optimize_route at h
    exact loopAux_refuel_sums hW hV h (fun m hm => absurd hm (List.not_mem_nil _))
  · intro cargo hc
    unfold optimizeCargoStates at hc
    refine cargoStates_bounded hW hV _ _ ?_ ?_ ?_ cargo hc
    · show manifestWeight o.gifts [] ≤ o.max_weight
      simpa [manifestWeight] using hW
    · show manifestVolume o.gifts [] ≤ o.max_volume
      simpa [manifestVolume] using hV
    · intro p hp
      cases hp

/-- Witness for claim C4 at the two-recipient run: the mid-route reload
manifest of one six-weight unit respects the ceilings, and so does the
initial (empty) cargo snapshot of the run. -/
theorem claim_C4_witness :
    (manifestWeight exTwoO.gifts [(4, 1)] ≤ exTwoO.max_weight ∧
     manifestVolume exTwoO.gifts [(4, 1)] ≤ exTwoO.max_volume) ∧
    (manifestWeight exTwoO.gifts [] ≤ exTwoO.max_weight ∧
     manifestVolume exTwoO.gifts [] ≤ exTwoO.max_volume) :=
  have h := claim_C4 exTwoO
    ⟨[Event.refuel [(4, 1)], Event.delivery 1, Event.refuel [(4, 1)],
      Event.delivery 2, Event.refuel []], 1/6, [], none⟩
    (by decide) (by decide)
    (by norm_num [optimize_route, initUnvisited, mergedChildren, assignChild,
      findGift, findChild, loopAux, scanBest, canDeliver, cargoGet, cargoDec,
      improves, undeliverableList, isTooBig, removeIds, bumpArticle,
      tallyArticles, itrunc, insertByKey, sortByKey, fillLoop, calculate_loading,
      finalize, northPole, MChild.coord, distZero, exSpecs, initOptimizer, exTwoO])
  ⟨h.1 [(4, 1)] (by decide),
   h.2 [] (cargoStates_head_mem exTwoO (2 * (initUnvisited exTwoO).length + 1) _)⟩

/-! ## Claim C5 -/

/-- Claim C5: in every completed run, each recipient appears at most once
as a delivery event across the returned route — the delivered id list
has no duplicates. -/
theorem claim_C5 (o : SantaRouteOptimizer) (r : RunResult)
    (h : optimize_route o = some (Outcome.ok r)) :
    (deliveredIds r.route).Nodup := by
  unfold optimize_route at h
  exact loopAux_deliv_nodup h (List.nodup_dedup _) List.nodup_nil
    (fun cid hcid => absurd hcid (List.not_mem_nil _))

/-- Witness for claim C5 at the empty-children run. -/
theorem claim_C5_witness :
    (deliveredIds (RunResult.mk [Event.refuel []] 0 [] none).route).Nodup :=
  claim_C5 exEmptyO ⟨[Event.refuel []], 0, [], none⟩
    (by norm_num [optimize_route, initUnvisited, mergedChildren, loopAux,
      finalize, northPole, distZero, exSpecs, initOptimizer, exEmptyO])

/-! ## Claim C6 -/

/-- Claim C6: whenever the selection scan picks a candidate, that
candidate is an unserved recipient whose assigned item is onboard with
a positive count, its distance from the current position is minimal
among all such recipients, and ties are broken by encounter order in
the unserved set: every deliverable candidate encountered strictly
before the chosen one is strictly farther.  The scan is a pure
function, so two runs on identical inputs produce identical choices
and hence identical routes. -/
theorem claim_C6 (o : SantaRouteOptimizer) (cargo : List (Nat × Nat)) (pos : Coord)
    (l : List Nat) (cid : Nat) (d : ℚ)
    (h : scanBest o cargo pos none l = some (some (cid, d))) :
    ∃ l₁ l₂ c, l = l₁ ++ cid :: l₂ ∧ findChild o cid = some c ∧
      canDeliver cargo c.article = true ∧ d = o.dist pos c.coord ∧
      MinOver o cargo pos d l ∧ MinOverStrict o cargo pos d l₁ := by
  rcases scanBest_char h with ⟨hacc, _⟩ |
    ⟨l₁, l₂, c, hsplit, hlk, hcd, hd, hstrict, hmin, _⟩
  · cases hacc
  · refine ⟨l₁, l₂, c, hsplit, hlk, hcd, hd, ?_, hstrict⟩
    intro x hx c' hc' hcd'
    rw [hsplit] at hx
    rcases List.mem_append.mp hx with hx1 | hx2
    · exact le_of_lt (hstrict x hx1 c' hc' hcd')
    · rcases List.mem_cons.mp hx2 with rfl | hx3
      · rw [hlk] at hc'
        cases Option.some_inj.mp hc'
        rw [hd]
      · exact hmin x hx3 c' hc' hcd'

/-- Witness for claim C6 at a concrete scan with one deliverable child. -/
theorem claim_C6_witness :
    ∃ l₁ l₂ c, [1] = l₁ ++ 1 :: l₂ ∧ findChild exOneO 1 = some c ∧
      canDeliver [(5, 1)] c.article = true ∧
      (0 : ℚ) = exOneO.dist northPole c.coord ∧
      MinOver exOneO [(5, 1)] northPole 0 [1] ∧
      MinOverStrict exOneO [(5, 1)] northPole 0 l₁ :=
  claim_C6 exOneO [(5, 1)] northPole [1] 1 0 (by decide)

/-! ## Claim C7 -/

/-- Claim C7: on demanding inputs whose articles resolve with positive
footprints (the reference computation divides by them) and nonnegative
capacity maxima, `calculate_loading` equals the reference greedy
bin-fill written from the specification — tally the demand, process in
ascending article-id order, load the minimum of the two capacity floors
and the outstanding demand, and omit zero-count entries — and the
result is a deterministic function of its inputs (both sides are pure
functions) containing only positive counts. -/
theorem claim_C7 (o : SantaRouteOptimizer) (l : List Nat)
    (hres : ∀ cid ∈ l, (findChild o cid).isSome)
    (Hpos : ∀ c ∈ mergedChildren o, giftOk o.gifts c.article = true)
    (hW : 0 ≤ o.max_weight) (hV : 0 ≤ o.max_volume) :
    ∃ t, tallyArticles o l [] = some t ∧
      calculate_loading o l =
        some (refFill o.gifts (sortByKey t) o.max_weight o.max_volume) ∧
      ∀ p ∈ refFill o.gifts (sortByKey t) o.max_weight o.max_volume, 0 < p.2 := by
  obtain ⟨t, ht⟩ := tallyArticles_total (o := o) [] hres
  have hkeys := tallyArticles_keys ht
  have hkey_gift : ∀ p ∈ sortByKey t, ∃ g, findGift o.gifts p.1 = some g ∧
      0 < g.weight ∧ 0 < g.volume := by
    intro p hp
    have hpt : p ∈ t := (List.Perm.mem_iff (sortByKey_perm t)).mp hp
    rcases hkeys p hpt with ⟨q, hq, _⟩ | ⟨cid, _, c, hc, ha⟩
    · cases hq
    · have hok := Hpos c (findChild_mem hc)
      rw [ha] at hok
      exact giftOk_iff.mp hok
  obtain ⟨out, hout⟩ := fillLoop_total o.gifts o.max_weight o.max_volume 0 0
    (fun p hp => by
      obtain ⟨g, hg, hwpos, hvpos⟩ := hkey_gift p hp
      exact ⟨g, hg, ne_of_gt hwpos, ne_of_gt hvpos⟩)
  have heq : out = refFill o.gifts (sortByKey t) (o.max_weight - 0) (o.max_volume - 0) :=
    fillLoop_eq_refFill hout hkey_gift (by rw [sub_zero]; exact hW)
      (by rw [sub_zero]; exact hV)
  rw [sub_zero, sub_zero] at heq
  refine ⟨t, ht, ?_, ?_⟩
  · simp only [calculate_loading, ht]
    rw [hout, heq]
  · rw [← heq]
    exact fillLoop_pos hout

/-- Witness for claim C7 at a concrete one-child unserved set. -/
theorem claim_C7_witness :
    ∃ t, tallyArticles exOneO [1] [] = some t ∧
      calculate_loading exOneO [1] =
        some (refFill exOneO.gifts (sortByKey t) exOneO.max_weight exOneO.max_volume) ∧
      ∀ p ∈ refFill exOneO.gifts (sortByKey t) exOneO.max_weight exOneO.max_volume,
        0 < p.2 :=
  claim_C7 exOneO [1] (by decide) (by decide) (by decide) (by decide)

/-! ## Claim C8 -/

/-- Claim C8, as stated, is false on the code: with one oversized
recipient (per-unit weight 100 against a 10 maximum) and one recipient
bound for the zero-footprint fallback item, the run raises during the
reload that follows the warning, so the oversized recipient is not
handled by a completed run that keeps planning for the others. -/
theorem claim_C8_counterexample :
    isTooBigId exHeavyCoalO 1 = true ∧
    ¬ ∃ r, optimize_route exHeavyCoalO = some (Outcome.ok r) := by
  refine ⟨by decide, ?_⟩
  rintro ⟨r, hr⟩
  have hcrash : optimize_route exHeavyCoalO = some Outcome.crash := by decide
  rw [hcrash] at hr
  cases Option.some_inj.mp hr

/-- Claim C8 (amended): provided every assigned item resolves with
positive per-unit weight and volume and speed is positive, the run
completes, and every recipient whose resolved footprint exceeds the
full capacity on weight or volume never appears in a delivery event and
is warned exactly once; planning continues for the remaining
recipients. -/
theorem claim_C8_amended (children : List Child) (gifts : List Gift)
    (dist : Coord → Coord → ℚ) (specs : SleighSpecs)
    (Hpos : ∀ c ∈ mergedChildren (initOptimizer children gifts dist specs),
      giftOk gifts c.article = true)
    (Hs : 0 < specs.speed_kmh) :
    ∃ r, optimize_route (initOptimizer children gifts dist specs) =
        some (Outcome.ok r) ∧
      ∀ cid ∈ (mergedChildren (initOptimizer children gifts dist specs)).map
          MChild.id,
        tooBigId (initOptimizer children gifts dist specs) cid →
          Event.delivery cid ∉ r.route ∧ r.warnings.count cid = 1 := by
  obtain ⟨r, mid, hloop, hroute, _, hwN, _, hcov, hheavy⟩ :=
    optimize_route_master (o := initOptimizer children gifts dist specs)
      Hpos (ne_of_gt Hs) (by norm_num [initOptimizer])
  refine ⟨r, hloop, ?_⟩
  intro cid hcid hbig
  have hcid' : cid ∈ initUnvisited (initOptimizer children gifts dist specs) := by
    rw [initUnvisited, List.mem_dedup]
    exact hcid
  have hwarned : cid ∈ r.warnings := by
    rcases hcov cid hcid' with h1 | h1
    · exact absurd h1 (hheavy cid hbig)
    · exact h1
  constructor
  · intro hmem
    rw [hroute] at hmem
    rcases List.mem_append.mp hmem with h1 | h1
    · exact hheavy cid hbig h1
    · cases List.mem_singleton.mp h1
  · exact List.count_eq_one_of_mem hwN hwarned

/-- Witness for claim C8 (amended) at a run with one oversized recipient
and one deliverable recipient. -/
theorem claim_C8_amended_witness :
    ∃ r, optimize_route exHeavyOkO = some (Outcome.ok r) ∧
      ∀ cid ∈ (mergedChildren exHeavyOkO).map MChild.id,
        tooBigId exHeavyOkO cid →
          Event.delivery cid ∉ r.route ∧ r.warnings.count cid = 1 :=
  claim_C8_amended
    [{ id := 1, lat := 0, lon := 0, naughty := false, wish := 7 },
     { id := 2, lat := 1, lon := 1, naughty := false, wish := 5 }]
    [{ article := 0, weight := 1, volume := 1 },
     { article := 5, weight := 2, volume := 3 },
     { article := 7, weight := 100, volume := 1 }]
    distZero exSpecs (by decide) (by decide)

/-! ## Claim C9 -/

/-- Claim C9: in every completed run the full route is returned, and the
advisory carrying the minimum required speed, computed as elapsed time
divided by the budget times the configured speed, is present if and
only if the elapsed time strictly exceeds the trip time budget. -/
theorem claim_C9 (o : SantaRouteOptimizer) (r : RunResult)
    (h : optimize_route o = some (Outcome.ok r)) :
    ∀ s, r.advisory = some s ↔
      (o.max_time_hours < r.totalTime ∧
       s = r.totalTime / o.max_time_hours * o.speed_kmh) := by
  unfold optimize_route at h
  exact loopAux_advisory h

/-- Witness for claim C9 at a run whose final depot return alone takes 70
hours against the 7-hour budget, yielding the advisory speed 10. -/
theorem claim_C9_witness :
    (RunResult.mk [Event.refuel []] 70 [] (some 10)).advisory = some 10 ↔
      (exLateO.max_time_hours <
        (RunResult.mk [Event.refuel []] 70 [] (some 10)).totalTime ∧
       (10 : ℚ) = (RunResult.mk [Event.refuel []] 70 [] (some 10)).totalTime /
         exLateO.max_time_hours * exLateO.speed_kmh) :=
  claim_C9 exLateO ⟨[Event.refuel []], 70, [], some 10⟩
    (by norm_num [optimize_route, initUnvisited, mergedChildren, loopAux,
      finalize, northPole, exSpecs, initOptimizer, exLateO]) 10

/-! ## Claim C10 -/

/-- Claim C10: for every run that completes (every assigned item
resolving with a positive footprint and positive speed guarantee
completion), the returned route's last event is one trailing reload
with an empty manifest, and every earlier event is either a delivery or
a reload whose manifest is nonempty with only positive counts, so each
mid-route depot visit loads at least one unit.  No fits-within-capacity
hypothesis is needed: oversized recipients are dropped before each
reload is computed, so even their presence leaves every mid-route
reload nonempty, covering the single-oversized-recipient scenario. -/
theorem claim_C10 (children : List Child) (gifts : List Gift)
    (dist : Coord → Coord → ℚ) (specs : SleighSpecs)
    (Hpos : ∀ c ∈ mergedChildren (initOptimizer children gifts dist specs),
      giftOk gifts c.article = true)
    (Hs : 0 < specs.speed_kmh) :
    (∀ r, optimize_route (initOptimizer children gifts dist specs) =
        some (Outcome.ok r) →
      ∃ mid, r.route = mid ++ [Event.refuel []] ∧
        ∀ e ∈ mid, (∃ cid, e = Event.delivery cid) ∨
          ∃ m, e = Event.refuel m ∧ m ≠ [] ∧ ∀ p ∈ m, 0 < p.2) ∧
    ∃ r, optimize_route (initOptimizer children gifts dist specs) =
      some (Outcome.ok r) := by
  obtain ⟨r0, mid, hloop, hroute, hmidP, _⟩ :=
    optimize_route_master (o := initOptimizer children gifts dist specs)
      Hpos (ne_of_gt Hs) (by norm_num [initOptimizer])
  constructor
  · intro r hr
    rw [hloop] at hr
    have : r0 = r := by
      have h1 := Option.some_inj.mp hr
      injection h1
    subst this
    exact ⟨mid, hroute, hmidP⟩
  · exact ⟨r0, hloop⟩

/-- Witness for claim C10 at a run with one oversized recipient (dropped
with a warning before the reload) and one deliverable recipient, the
specification's oversized-recipient scenario alongside a nonempty
mid-route reload. -/
theorem claim_C10_witness :
    (∀ r, optimize_route exHeavyOkO = some (Outcome.ok r) →
      ∃ mid, r.route = mid ++ [Event.refuel []] ∧
        ∀ e ∈ mid, (∃ cid, e = Event.delivery cid) ∨
          ∃ m, e = Event.refuel m ∧ m ≠ [] ∧ ∀ p ∈ m, 0 < p.2) ∧
    ∃ r, optimize_route exHeavyOkO = some (Outcome.ok r) :=
  claim_C10
    [{ id := 1, lat := 0, lon := 0, naughty := false, wish := 7 },
     { id := 2, lat := 1, lon := 1, naughty := false, wish := 5 }]
    [{ article := 0, weight := 1, volume := 1 },
     { article := 5, weight := 2, volume := 3 },
     { article := 7, weight := 100, volume := 1 }]
    distZero exSpecs (by decide) (by decide)
